import Mathlib

/-!
Verification of the MMS PDU codec (`messaging/mms/mms_pdu.py`).

The decoder and encoder of the repository are embedded shallowly.  A
decoding step has type `List Nat → Except Err α × List Nat`: the input is
the remaining byte sequence seen by the cursor, the output is either a
value or a raised exception, together with the byte sequence remaining
after the step (Python exceptions leave the shared iterator in its
current, possibly advanced, state, so the state is returned on the error
path as well).

The lookahead cursor (`PreviewIterator`) and the generic WSP primitive
codec (`wsp_pdu`) are collaborators of the file under verification that
are not part of the verified source; they are modelled from the spec
(sections 6 and 9): the cursor is a position into an immutable byte
sequence with a single pending-peek slot, hence peeking does not change
the observable state and rollback is the identity; the primitives follow
the byte grammars the spec states for them.
-/

/-- The exception taxonomy of the codec: `decodeError` is the recoverable
grammar-mismatch signal (`wsp_pdu.DecodeError`), `encodeError` is
`wsp_pdu.EncodeError`, `stopIteration` is cursor exhaustion,
`runtimeError` covers the fatal dispatch errors (the bare `except:`
re-raise paths and `RuntimeError`), `nameError` is the unhandled
name-resolution error of reading an unassigned local variable, and `fuel`
marks recursion-bound exhaustion of the embedding (proved unreachable for
the bounds used). -/
inductive Err where
  | decodeError
  | encodeError
  | stopIteration
  | runtimeError
  | nameError
  | fuel
deriving DecidableEq, Repr

/-- A decoded header value: Python's heterogeneous values (strings,
booleans, integers, and the content-type tuple of a type and its
parameter mapping). -/
inductive HVal where
  | s (v : String)
  | b (v : Bool)
  | n (v : Nat)
  | ct (t : String) (ps : List (String × String))
deriving DecidableEq, Repr

/-- A header mapping, in Python dictionary style: insertion ordered,
an insert of an existing key updates it in place, an insert of a fresh
key appends. -/
abbrev Headers := List (String × HVal)

def hEmpty : Headers := []

def hMem (h : Headers) (k : String) : Bool :=
  h.any (fun kv => kv.1 = k)

def hGet (h : Headers) (k : String) : Option HVal :=
  (h.find? (fun kv => kv.1 = k)).map (fun kv => kv.2)

def hInsert (h : Headers) (k : String) (v : HVal) : Headers :=
  if hMem h k then h.map (fun kv => if kv.1 = k then (k, v) else kv)
  else h ++ [(k, v)]

def hDel (h : Headers) (k : String) : Headers :=
  h.filter (fun kv => kv.1 ≠ k)

def hFold (h : Headers) (es : List (String × HVal)) : Headers :=
  es.foldl (fun acc kv => hInsert acc kv.1 kv.2) h

/-- The result of a decoding step: the raised-or-returned value and the
bytes remaining after the step. -/
abbrev DecR (α : Type) := Except Err α × List Nat

/-- ASCII bytes of a string (the codec's values are ASCII). -/
def strB (s : String) : List Nat :=
  s.data.map Char.toNat

/-- Bytes back to a string. -/
def bytesStr (l : List Nat) : String :=
  String.mk (l.map Char.ofNat)

/-- Split a byte list at its first null byte: the bytes before it and the
bytes after it. `none` when no null byte occurs. -/
def splitAtZero : List Nat → Option (List Nat × List Nat)
  | [] => none
  | b :: rest =>
    if b = 0 then some ([], rest)
    else match splitAtZero rest with
      | some (pre, post) => some (b :: pre, post)
      | none => none

/-- Read exactly `n` bytes, one `next()` at a time; on exhaustion the
iterator has been drained and `StopIteration` is raised. -/
def readN : Nat → List Nat → DecR (List Nat)
  | 0, s => (.ok [], s)
  | _ + 1, [] => (.error .stopIteration, [])
  | n + 1, b :: rest =>
    match readN n rest with
    | (.ok bs, s') => (.ok (b :: bs), s')
    | (.error e, s') => (.error e, s')

/-- Modelled from the spec: `wsp_pdu.Decoder.decodeUintvar` accumulator;
each byte's top bit is a continuation flag, low 7 bits are payload,
most-significant group first (spec section 6). -/
def decodeUintvarAux (acc : Nat) : List Nat → DecR Nat
  | [] => (.error .stopIteration, [])
  | b :: rest =>
    if 128 ≤ b then decodeUintvarAux (acc * 128 + (b - 128)) rest
    else (.ok (acc * 128 + b), rest)

/-- Modelled from the spec: `wsp_pdu.Decoder.decodeUintvar`. -/
def decodeUintvar (s : List Nat) : DecR Nat :=
  decodeUintvarAux 0 s

/-- Continuation-flagged upper groups of a variable-length integer; the
first argument is recursion fuel (the value itself bounds the number of
groups). -/
def encodeUintvarCont : Nat → Nat → List Nat
  | 0, _ => []
  | f + 1, n =>
    if n = 0 then []
    else encodeUintvarCont f (n / 128) ++ [128 + n % 128]

/-- Modelled from the spec: `wsp_pdu.Encoder.encodeUintvar`. -/
def encodeUintvar (n : Nat) : List Nat :=
  encodeUintvarCont n (n / 128) ++ [n % 128]

/-- Modelled from the spec: `wsp_pdu.Decoder.decodeShortIntegerFromByte`;
a short integer is a byte with its high bit set, the value being the low
seven bits; a clear high bit is a grammar mismatch. -/
def decodeShortIntegerFromByte (b : Nat) : Except Err Nat :=
  if 128 ≤ b then .ok (b - 128) else .error .decodeError

/-- Modelled from the spec: `wsp_pdu.Encoder.encodeShortInteger`. -/
def encodeShortInteger (n : Nat) : List Nat :=
  [128 + n]

/-- Modelled from the spec: `wsp_pdu.Decoder.decodeValueLength`; a short
length is a byte in 0..30, a byte 31 quotes a following variable-length
integer, any other byte is a grammar mismatch with the cursor rolled
back. -/
def decodeValueLength : List Nat → DecR Nat
  | [] => (.error .stopIteration, [])
  | b :: rest =>
    if b ≤ 30 then (.ok b, rest)
    else if b = 31 then decodeUintvarAux 0 rest
    else (.error .decodeError, b :: rest)

/-- Modelled from the spec: `wsp_pdu.Encoder.encodeValueLength`. -/
def encodeValueLength (n : Nat) : List Nat :=
  if n ≤ 30 then [n] else 31 :: encodeUintvar n

/-- Modelled from the spec: `wsp_pdu.Decoder.decodeTextString`; a
null-terminated character string, a first byte 127 quoting a string whose
first character has its top bit set. -/
def decodeTextString (s : List Nat) : DecR String :=
  match splitAtZero (if s.head? = some 127 then s.tail else s) with
  | some (pre, post) => (.ok (bytesStr pre), post)
  | none => (.error .stopIteration, [])

/-- Modelled from the spec: `wsp_pdu.Encoder.encodeTextString`. -/
def encodeTextString (t : String) : List Nat :=
  match strB t with
  | [] => [0]
  | b :: rest => (if 128 ≤ b then 127 :: b :: rest else b :: rest) ++ [0]

/-- Modelled from the spec: `wsp_pdu.Decoder.decodeTokenText`; a
null-terminated token whose first byte must be a printable token
character, otherwise a grammar mismatch with the cursor rolled back. -/
def decodeTokenText : List Nat → DecR String
  | [] => (.error .stopIteration, [])
  | b :: rest =>
    if b ≤ 31 ∨ 127 ≤ b then (.error .decodeError, b :: rest)
    else match splitAtZero (b :: rest) with
      | some (pre, post) => (.ok (bytesStr pre), post)
      | none => (.error .stopIteration, [])

/-- Modelled from the spec: `wsp_pdu.Encoder.encodeTokenText`. -/
def encodeTokenText (t : String) : List Nat :=
  strB t ++ [0]

/-- Modelled from the spec: `wsp_pdu.Decoder.decodeWellKnownCharset`; a
well-known charset is a short-integer MIBEnum value; a clear high bit is
a grammar mismatch with the cursor rolled back. -/
def decodeWellKnownCharset : List Nat → DecR Nat
  | [] => (.error .stopIteration, [])
  | b :: rest =>
    if 128 ≤ b then (.ok (b - 128), rest)
    else (.error .decodeError, b :: rest)

/-- Big-endian octets of a number; the first argument is recursion fuel
(the value itself bounds the octet count). -/
def natBytesAux : Nat → Nat → List Nat
  | 0, n => [n % 256]
  | f + 1, n =>
    if n < 256 then [n] else natBytesAux f (n / 256) ++ [n % 256]

/-- Modelled from the spec: `wsp_pdu.Encoder.encodeLongInteger`; a short
length octet count followed by the big-endian octets. -/
def encodeLongInteger (n : Nat) : List Nat :=
  let os := natBytesAux n n
  os.length :: os

/-- Modelled from the spec: `wsp_pdu.Decoder.decodeLongInteger`. -/
def decodeLongInteger : List Nat → DecR Nat
  | [] => (.error .stopIteration, [])
  | b :: rest =>
    if 1 ≤ b ∧ b ≤ 30 then
      match readN b rest with
      | (.ok os, s') => (.ok (os.foldl (fun acc o => acc * 256 + o) 0), s')
      | (.error e, s') => (.error e, s')
    else (.error .decodeError, b :: rest)

/-- Modelled from the spec: `wsp_pdu.Decoder.decodeDateValue` delegates to
the long-integer grammar (seconds count). -/
def decodeDateValue (s : List Nat) : DecR Nat :=
  decodeLongInteger s

/-- Modelled from the spec: `wsp_pdu.Decoder.decodeDeltaSecondsValue`
delegates to the long-integer grammar. -/
def decodeDeltaSecondsValue (s : List Nat) : DecR Nat :=
  decodeLongInteger s

/-- Modelled from the spec: `wsp_pdu.Decoder.decodeVersionValue`; a
short-integer packs major in the low three bits of the high nibble and
minor in the low nibble, otherwise the version is a text string. -/
def decodeVersionValue : List Nat → DecR String
  | [] => (.error .stopIteration, [])
  | b :: rest =>
    if 128 ≤ b then
      (.ok (toString ((b - 128) / 16) ++ "." ++ toString (b % 16)), rest)
    else decodeTextString (b :: rest)

/-- Modelled from the spec: `wsp_pdu.Encoder.encodeVersionValue`. -/
def encodeVersionValue (t : String) : List Nat :=
  if t = "1.0" then [0x90]
  else if t = "1.1" then [0x91]
  else if t = "1.2" then [0x92]
  else if t = "1.3" then [0x93]
  else encodeTextString t

/-- Modelled from the spec: `wsp_pdu.Decoder.decodeUriValue` delegates to
the text-string grammar. -/
def decodeUriValue (s : List Nat) : DecR String :=
  decodeTextString s

/-- Modelled from the spec: the well-known content-type assignment used
by the codec (`application/vnd.wap.multipart.related` is assigned number
0x33). -/
def wkContentType (n : Nat) : String :=
  if n = 0x33 then "application/vnd.wap.multipart.related" else "unknown"

/-- Content-type parameters inside a length-bounded block: a sequence of
null-terminated name and value pairs. The first argument is recursion
fuel (the block length bounds the pair count). -/
def parseCTParams : Nat → List Nat → Except Err (List (String × String))
  | _, [] => .ok []
  | 0, _ :: _ => .error .decodeError
  | f + 1, l =>
    match splitAtZero l with
    | none => .error .decodeError
    | some (k, rest1) =>
      match splitAtZero rest1 with
      | none => .error .decodeError
      | some (v, rest2) =>
        match parseCTParams f rest2 with
        | .ok ps => .ok ((bytesStr k, bytesStr v) :: ps)
        | .error e => .error e

/-- Modelled from the spec: `wsp_pdu.Decoder.decodeContentTypeValue`; a
length-prefixed general form (media text plus parameters bounded to the
declared length), a bare media text, or a well-known short-integer
assignment. -/
def decodeContentTypeValue (s : List Nat) : DecR (String × List (String × String)) :=
  match s with
  | [] => (.error .stopIteration, [])
  | b :: rest =>
    if b ≤ 30 then
      match readN b rest with
      | (.ok block, s') =>
        (match decodeTextString block with
         | (.ok t, sub) =>
           (match parseCTParams sub.length sub with
            | .ok ps => (.ok (t, ps), s')
            | .error e => (.error e, s'))
         | (.error e, _) => (.error e, s'))
      | (.error e, s') => (.error e, s')
    else if b = 31 then
      match decodeUintvarAux 0 rest with
      | (.ok len, s1) =>
        (match readN len s1 with
         | (.ok block, s') =>
           (match decodeTextString block with
            | (.ok t, sub) =>
              (match parseCTParams sub.length sub with
               | .ok ps => (.ok (t, ps), s')
               | .error e => (.error e, s'))
            | (.error e, _) => (.error e, s'))
         | (.error e, s') => (.error e, s'))
      | (.error e, s1) => (.error e, s1)
    else if b ≤ 127 then
      match decodeTextString (b :: rest) with
      | (.ok t, s') => (.ok (t, []), s')
      | (.error e, s') => (.error e, s')
    else (.ok (wkContentType (b - 128), []), rest)

/-- Modelled from the spec: `wsp_pdu.Encoder.encodeContentTypeValue`; a
bare media text when there are no parameters, the length-prefixed general
form otherwise. -/
def encodeContentTypeValue (t : String) (ps : List (String × String)) : List Nat :=
  if ps = [] then strB t ++ [0]
  else
    let body := strB t ++ [0] ++
      (ps.map (fun kv => strB kv.1 ++ [0] ++ strB kv.2 ++ [0])).flatten
    encodeValueLength body.length ++ body

/-! ## The MMS header field registry (`mms_field_names`, source lines 16-41) -/

/-- The assigned-number table of `mms_pdu.py`: field code, field name, and
the value-kind tag used for dynamic dispatch (`None` for the one field
without an implemented grammar). Listed in the source's order. -/
def mms_field_names : List (Nat × String × Option String) :=
  [(0x01, ("Bcc", some "EncodedStringValue")),
   (0x02, ("Cc", some "EncodedStringValue")),
   (0x03, ("Content-Location", some "UriValue")),
   (0x04, ("Content-Type", some "ContentTypeValue")),
   (0x05, ("Date", some "DateValue")),
   (0x06, ("Delivery-Report", some "BooleanValue")),
   (0x07, ("Delivery-Time", none)),
   (0x08, ("Expiry", some "ExpiryValue")),
   (0x09, ("From", some "FromValue")),
   (0x0a, ("Message-Class", some "MessageClassValue")),
   (0x0b, ("Message-ID", some "TextString")),
   (0x0c, ("Message-Type", some "MessageTypeValue")),
   (0x0d, ("MMS-Version", some "VersionValue")),
   (0x0e, ("Message-Size", some "LongInteger")),
   (0x0f, ("Priority", some "PriorityValue")),
   (0x10, ("Read-Reply", some "BooleanValue")),
   (0x11, ("Report-Allowed", some "BooleanValue")),
   (0x12, ("Response-Status", some "ResponseStatusValue")),
   (0x13, ("Response-Text", some "EncodedStringValue")),
   (0x14, ("Sender-Visibility", some "SenderVisibilityValue")),
   (0x15, ("Status", some "StatusValue")),
   (0x16, ("Subject", some "EncodedStringValue")),
   (0x17, ("To", some "EncodedStringValue")),
   (0x18, ("Transaction-Id", some "TextString"))]

/-- Registry lookup by field code (`byte in mms_field_names`). -/
def fieldByCode (c : Nat) : Option (String × Option String) :=
  (mms_field_names.find? (fun e => e.1 = c)).map (fun e => e.2)

/-- Registry lookup by field name, returning code and value kind (the
linear scans of `encode_header` and `encodeMMSFieldName`). -/
def fieldByName (n : String) : Option (Nat × Option String) :=
  (mms_field_names.find? (fun e => e.2.1 = n)).map (fun e => (e.1, e.2.2))

/-! ## MMSDecoder value decoders (source lines 261-513) -/

/-- `MMSDecoder.decodeEncodedStringValue`: first the
value-length/charset/text-string branch; a charset mismatch raises a
plain `Exception` (not a `DecodeError`, hence fatal to the caller's
specialized parse); a `DecodeError` anywhere else in the branch falls
back to a bare text string from the cursor's current state. -/
def decodeEncodedStringValue (s : List Nat) : DecR String :=
  match decodeValueLength s with
  | (.error .decodeError, s1) => decodeTextString s1
  | (.error e, s1) => (.error e, s1)
  | (.ok _, s1) =>
    match decodeWellKnownCharset s1 with
    | (.error .decodeError, s2) => (.error .runtimeError, s2)
    | (.error e, s2) => (.error e, s2)
    | (.ok _, s2) =>
      match decodeTextString s2 with
      | (.error .decodeError, s3) => decodeTextString s3
      | r => r

/-- `MMSDecoder.decodeBooleanValue`: byte 128 is true, 129 is false, any
other byte raises `DecodeError` with the cursor rolled back. -/
def decodeBooleanValue : List Nat → DecR Bool
  | [] => (.error .stopIteration, [])
  | b :: rest =>
    if b = 128 ∨ b = 129 then (.ok (b = 128), rest)
    else (.error .decodeError, b :: rest)

/-- `MMSDecoder.decodeFromValue`: a value length, then a token byte; 129
is the insert-address token, anything else is followed by an
encoded-string address. -/
def decodeFromValue (s : List Nat) : DecR String :=
  match decodeValueLength s with
  | (.error e, s') => (.error e, s')
  | (.ok _, s1) =>
    match s1 with
    | [] => (.error .stopIteration, [])
    | b :: rest =>
      if b = 129 then (.ok "<not inserted>", rest)
      else decodeEncodedStringValue rest

/-- The class-identifier table of `decodeMessageClassValue`. -/
def classIdentifiers (b : Nat) : Option String :=
  match b with
  | 128 => some "Personal"
  | 129 => some "Advertisement"
  | 130 => some "Informational"
  | 131 => some "Auto"
  | _ => none

/-- `MMSDecoder.decodeMessageClassValue`: a class-identifier byte, else
roll back and decode generic token text. -/
def decodeMessageClassValue : List Nat → DecR String
  | [] => (.error .stopIteration, [])
  | b :: rest =>
    match classIdentifiers b with
    | some name => (.ok name, rest)
    | none => decodeTokenText (b :: rest)

/-- The seven-entry message-type table of `decodeMessageTypeValue`. -/
def message_types (b : Nat) : Option String :=
  match b with
  | 0x80 => some "m-send-req"
  | 0x81 => some "m-send-conf"
  | 0x82 => some "m-notification-ind"
  | 0x83 => some "m-notifyresp-ind"
  | 0x84 => some "m-retrieve-conf"
  | 0x85 => some "m-acknowledge-ind"
  | 0x86 => some "m-delivery-ind"
  | _ => none

/-- `MMSDecoder.decodeMessageTypeValue`: a table byte is consumed and
named; an unknown byte is rolled back and the sentinel is returned
without consuming. -/
def decodeMessageTypeValue : List Nat → DecR String
  | [] => (.error .stopIteration, [])
  | b :: rest =>
    match message_types b with
    | some name => (.ok name, rest)
    | none => (.ok "<unknown>", b :: rest)

/-- `MMSDecoder.decodePriorityValue`. -/
def decodePriorityValue : List Nat → DecR String
  | [] => (.error .stopIteration, [])
  | b :: rest =>
    match (match b with
           | 128 => some "Low"
           | 129 => some "Normal"
           | 130 => some "High"
           | _ => none : Option String) with
    | some name => (.ok name, rest)
    | none => (.error .decodeError, b :: rest)

/-- `MMSDecoder.decodeSenderVisibilityValue`. -/
def decodeSenderVisibilityValue : List Nat → DecR String
  | [] => (.error .stopIteration, [])
  | b :: rest =>
    if b = 128 ∨ b = 129 then
      (.ok (if b = 128 then "Hide" else "Show"), rest)
    else (.error .decodeError, b :: rest)

/-- The nine-entry response-status table. -/
def response_status_values (b : Nat) : Option String :=
  match b with
  | 0x80 => some "Ok"
  | 0x81 => some "Error-unspecified"
  | 0x82 => some "Error-service-denied"
  | 0x83 => some "Error-message-format-corrupt"
  | 0x84 => some "Error-sending-address-unresolved"
  | 0x85 => some "Error-message-not-found"
  | 0x86 => some "Error-network-problem"
  | 0x87 => some "Error-content-not-accepted"
  | 0x88 => some "Error-unsupported-message"
  | _ => none

/-- `MMSDecoder.decodeResponseStatusValue`: the byte is always consumed;
an unmapped byte yields the numeric fallback 0x81 instead of a name. -/
def decodeResponseStatusValue : List Nat → DecR HVal
  | [] => (.error .stopIteration, [])
  | b :: rest =>
    match response_status_values b with
    | some name => (.ok (.s name), rest)
    | none => (.ok (.n 0x81), rest)

/-- The five-entry status table. -/
def status_values (b : Nat) : Option String :=
  match b with
  | 0x80 => some "Expired"
  | 0x81 => some "Retrieved"
  | 0x82 => some "Rejected"
  | 0x83 => some "Deferred"
  | 0x84 => some "Unrecognised"
  | _ => none

/-- `MMSDecoder.decodeStatusValue`: the byte is always consumed; an
unmapped byte yields the numeric fallback 0x84. -/
def decodeStatusValue : List Nat → DecR HVal
  | [] => (.error .stopIteration, [])
  | b :: rest =>
    match status_values b with
    | some name => (.ok (.s name), rest)
    | none => (.ok (.n 0x84), rest)

/-- `MMSDecoder.decodeExpiryValue`: a value length, then a token byte;
0x80 selects an absolute date, 0x81 a delta-seconds value, any other
token raises `DecodeError` after having been consumed. -/
def decodeExpiryValue (s : List Nat) : DecR Nat :=
  match decodeValueLength s with
  | (.error e, s') => (.error e, s')
  | (.ok _, s1) =>
    match s1 with
    | [] => (.error .stopIteration, [])
    | b :: rest =>
      if b = 0x80 then decodeDateValue rest
      else if b = 0x81 then decodeDeltaSecondsValue rest
      else (.error .decodeError, rest)

/-! ## Header decoding (source lines 90-259) -/

/-- Wrap a value decoder's result as a header value, propagating its
exceptions. -/
def wrapD {α : Type} (g : α → HVal) (f : List Nat → DecR α) (s : List Nat) :
    DecR HVal :=
  match f s with
  | (.ok v, s') => (.ok (g v), s')
  | (.error e, s') => (.error e, s')

/-- The `getattr(MMSDecoder, 'decode%s' % name)` dynamic dispatch on the
registry's value-kind tag, wrapping each decoder's result as a header
value; a missing decoder (the `None` kind) raises `AttributeError`,
modelled as the fatal error it becomes under the bare `except:`. -/
def decodeDispatch (kind : Option String) (s : List Nat) : DecR HVal :=
  if kind = some "EncodedStringValue" then wrapD HVal.s decodeEncodedStringValue s
  else if kind = some "UriValue" then wrapD HVal.s decodeUriValue s
  else if kind = some "ContentTypeValue" then
    wrapD (fun v => HVal.ct v.1 v.2) decodeContentTypeValue s
  else if kind = some "DateValue" then wrapD HVal.n decodeDateValue s
  else if kind = some "BooleanValue" then wrapD HVal.b decodeBooleanValue s
  else if kind = some "ExpiryValue" then wrapD HVal.n decodeExpiryValue s
  else if kind = some "FromValue" then wrapD HVal.s decodeFromValue s
  else if kind = some "MessageClassValue" then wrapD HVal.s decodeMessageClassValue s
  else if kind = some "TextString" then wrapD HVal.s decodeTextString s
  else if kind = some "MessageTypeValue" then wrapD HVal.s decodeMessageTypeValue s
  else if kind = some "VersionValue" then wrapD HVal.s decodeVersionValue s
  else if kind = some "LongInteger" then wrapD HVal.n decodeLongInteger s
  else if kind = some "PriorityValue" then wrapD HVal.s decodePriorityValue s
  else if kind = some "SenderVisibilityValue" then
    wrapD HVal.s decodeSenderVisibilityValue s
  else if kind = some "ResponseStatusValue" then decodeResponseStatusValue s
  else if kind = some "StatusValue" then decodeStatusValue s
  else (.error .runtimeError, s)

/-- `MMSDecoder.decodeMMSHeader`: peek a byte, read it as a short-integer
field code, resolve it in the registry (rolling back and raising
`DecodeError` when unknown), consume it and dispatch the value decoder.
The value dispatch is wrapped so that a `DecodeError` stays a
`DecodeError` while every other exception (including an exhaustion inside
the value grammar) becomes the fatal `RuntimeError` of the bare
`except:`. -/
def decodeMMSHeader (s : List Nat) : DecR (String × HVal) :=
  match s with
  | [] => (.error .stopIteration, [])
  | b0 :: rest =>
    match decodeShortIntegerFromByte b0 with
    | .error e => (.error e, b0 :: rest)
    | .ok code =>
      match fieldByCode code with
      | none => (.error .decodeError, b0 :: rest)
      | some (name, kind) =>
        match decodeDispatch kind rest with
        | (.ok v, s') => (.ok (name, v), s')
        | (.error .decodeError, s') => (.error .decodeError, s')
        | (.error _, s') => (.error .runtimeError, s')

/-- Modelled from the spec: the generic `wsp_pdu.Decoder.decode_header`
application-header grammar — a token-text name followed by a text-string
value. -/
def wsp_decode_header (s : List Nat) : DecR (String × HVal) :=
  match decodeTokenText s with
  | (.error e, s') => (.error e, s')
  | (.ok name, s1) =>
    match decodeTextString s1 with
    | (.error e, s') => (.error e, s')
    | (.ok v, s2) => (.ok (name, .s v), s2)

/-- `MMSDecoder.decode_header`: try the specialized MMS header; on a
`DecodeError` (and only then) fall back to the generic application-header
grammar from the cursor's current state. -/
def decode_header (s : List Nat) : DecR (String × HVal) :=
  match decodeMMSHeader s with
  | (.error .decodeError, s') => wsp_decode_header s'
  | r => r

/-- The `while content_type_found == False` loop of
`decode_message_header`: each accepted non-Content-Type entry is stored
into the header map and remembered as the current `header, value` locals;
accepting a Content-Type entry ends the loop with those locals set to it;
a `StopIteration` from `decode_header` breaks out; any other exception
propagates. The first argument is recursion fuel. -/
def decodeHeaderLoop :
    Nat → List Nat → Headers → Option (String × HVal) →
    Except Err (Headers × Option (String × HVal) × List Nat)
  | 0, _, _, _ => .error .fuel
  | fuel + 1, s, hmap, last =>
    match decode_header s with
    | (.error .stopIteration, s') => .ok (hmap, last, s')
    | (.error e, _) => .error e
    | (.ok (h, v), s') =>
      if h = "Content-Type" then .ok (hmap, some (h, v), s')
      else decodeHeaderLoop fuel s' (hInsert hmap h v) (some (h, v))

/-- `MMSDecoder.decode_message_header`: run the header loop over a fresh
cursor; afterwards the code reads the loop variable `header` — if the
loop never assigned it (first iteration already exhausted) this is an
unhandled name-resolution error; if it names Content-Type, that entry is
stored as well. Returns the header map and the remaining bytes. -/
def decode_message_header (data : List Nat) : Except Err (Headers × List Nat) :=
  match decodeHeaderLoop (data.length + 1) data hEmpty none with
  | .error e => .error e
  | .ok (_, none, _) => .error .nameError
  | .ok (hmap, some (h, v), s') =>
    if h = "Content-Type" then .ok (hInsert hmap h v, s')
    else .ok (hmap, s')

/-! ## The message model (collaborator `messaging.mms.message`) -/

/-- Modelled from the spec: a `DataPart` exposes payload bytes, content
type, content-type parameters, and a header mapping. -/
structure DataPart where
  contentType : String
  contentTypeParameters : List (String × String)
  headers : Headers
  data : List Nat
deriving DecidableEq, Repr

/-- Modelled from the spec: `DataPart.set_data` stores the payload and
content type, recording the content type in the part's own header map. -/
def setData (p : DataPart) (d : List Nat) (ct : String) : DataPart :=
  { p with
    data := d
    contentType := ct
    headers := hInsert p.headers "Content-Type" (.ct ct []) }

/-- Modelled from the spec: a page (slide) grouping with optional image,
audio, and text part references (the reference tuple's extra layout
fields are immaterial to the codec, which takes element 0). -/
structure Page where
  image : Option DataPart
  audio : Option DataPart
  text : Option DataPart
deriving DecidableEq, Repr

/-- Modelled from the spec: `MMSPage.number_of_parts`, the count of
present parts of a page. -/
def numberOfParts (p : Page) : Nat :=
  ([p.image, p.audio, p.text].filterMap id).length

/-- Modelled from the spec: an `MMSMessage` is a header mapping, an
ordered sequence of data parts, and a sequence of pages. -/
structure MMSMessage where
  headers : Headers
  dataParts : List DataPart
  pages : List Page
deriving DecidableEq, Repr

/-- Modelled from the spec: `MMSMessage.smil()` synthesizes
presentation-markup bytes from the page structure; the exact markup is
immaterial to the codec, which treats it as an opaque payload. -/
def smilBytes (_ : MMSMessage) : List Nat :=
  strB "<smil></smil>"

/-! ## Body decoding (source lines 131-186) -/

/-- The `while True` loop reading a part's additional headers from the
bounded sub-cursor over its header block, until exhaustion breaks out; a
`DecodeError` or fatal error propagates. The first argument is recursion
fuel. -/
def partHeadersLoop : Nat → List Nat → Headers → Except Err Headers
  | 0, _, _ => .error .fuel
  | fuel + 1, s, hmap =>
    match decode_header s with
    | (.error .stopIteration, _) => .ok hmap
    | (.error e, _) => .error e
    | (.ok (h, v), s') => partHeadersLoop fuel s' (hInsert hmap h v)

/-- The per-part body of `decode_message_body`'s `for part_num in
range(num_entries)` loop: headers-length and data-length variable-length
integers, exactly `headers_len` bytes collected into a fresh sub-cursor
(content type first, then the remaining headers), exactly `data_len`
payload bytes, and the assembled `DataPart` appended in order. -/
def decodeParts : Nat → List Nat → Except Err (List DataPart)
  | 0, _ => .ok []
  | n + 1, s =>
    match decodeUintvar s with
    | (.error e, _) => .error e
    | (.ok headers_len, s1) =>
      match decodeUintvar s1 with
      | (.error e, _) => .error e
      | (.ok data_len, s2) =>
        match readN headers_len s2 with
        | (.error e, _) => .error e
        | (.ok ct_field_bytes, s3) =>
          match decodeContentTypeValue ct_field_bytes with
          | (.error e, _) => .error e
          | (.ok (content_type, ct_parameters), sub) =>
            match partHeadersLoop (sub.length + 1) sub
                (hInsert hEmpty "Content-Type" (.ct content_type ct_parameters)) with
            | .error e => .error e
            | .ok headers =>
              match readN data_len s3 with
              | (.error e, _) => .error e
              | (.ok payload, s4) =>
                let part0 : DataPart := ⟨"", [], hEmpty, []⟩
                let part1 := setData part0 payload content_type
                let part := { part1 with
                  contentTypeParameters := ct_parameters
                  headers := headers }
                match decodeParts n s4 with
                | .error e => .error e
                | .ok parts => .ok (part :: parts)

/-- `MMSDecoder.decode_message_body`: read the part count (an exhaustion
here is the ordinary no-body termination), then decode that many parts;
any exception inside the part loop propagates. -/
def decode_message_body (s : List Nat) : Except Err (List DataPart) :=
  match decodeUintvar s with
  | (.error .stopIteration, _) => .ok []
  | (.error e, _) => .error e
  | (.ok num_entries, s1) => decodeParts num_entries s1

/-- `MMSDecoder.decode_data`: a fresh message, the header block over the
full buffer, then the body over the remaining bytes. -/
def decode_data (data : List Nat) : Except Err MMSMessage :=
  match decode_message_header data with
  | .error e => .error e
  | .ok (hdrs, rest) =>
    match decode_message_body rest with
    | .error e => .error e
    | .ok parts => .ok ⟨hdrs, parts, []⟩

/-! ## MMSEncoder value encoders (source lines 730-891) -/

/-- `MMSEncoder.encodeEncodedStringValue`: a plain wrapper around the
text-string encoder. -/
def encodeEncodedStringValue (t : String) : List Nat :=
  encodeTextString t

/-- `MMSEncoder.encodeMessageTypeValue`: the inverse message-type table;
an unknown type is encoded as 0x80 (`m-send-req`). -/
def encodeMessageTypeValue (t : String) : List Nat :=
  match t with
  | "m-send-req" => [0x80]
  | "m-send-conf" => [0x81]
  | "m-notification-ind" => [0x82]
  | "m-notifyresp-ind" => [0x83]
  | "m-retrieve-conf" => [0x84]
  | "m-acknowledge-ind" => [0x85]
  | "m-delivery-ind" => [0x86]
  | _ => [0x80]

/-- `MMSEncoder.encodeFromValue`: an empty address encodes the
insert-address token under a value length of one; otherwise the
address-present token followed by the encoded string, the value length
covering both. -/
def encodeFromValue (t : String) : List Nat :=
  if t.length = 0 then encodeValueLength 1 ++ [129]
  else
    let ea := encodeEncodedStringValue t
    encodeValueLength (ea.length + 1) ++ [128] ++ ea

/-- Modelled from the spec: the message-class encoder — fixed names map
back to 128..131, unmapped values fail with an encode error. -/
def encodeMessageClassValue (t : String) : Except Err (List Nat) :=
  match t with
  | "Personal" => .ok [128]
  | "Advertisement" => .ok [129]
  | "Informational" => .ok [130]
  | "Auto" => .ok [131]
  | _ => .error .encodeError

/-- Modelled from the spec: the priority encoder — the inverse map,
unmapped values fail. -/
def encodePriorityValue (t : String) : Except Err (List Nat) :=
  match t with
  | "Low" => .ok [128]
  | "Normal" => .ok [129]
  | "High" => .ok [130]
  | _ => .error .encodeError

/-- Modelled from the spec: the sender-visibility encoder — the inverse
map, unmapped values fail. -/
def encodeSenderVisibilityValue (t : String) : Except Err (List Nat) :=
  match t with
  | "Hide" => .ok [128]
  | "Show" => .ok [129]
  | _ => .error .encodeError

/-- Modelled from the spec: the boolean encoder — true is 0x80, false is
0x81. -/
def encodeBooleanValue (v : Bool) : List Nat :=
  if v then [0x80] else [0x81]

/-- The `getattr(MMSEncoder, 'encode%s' % expected_type)` dynamic
dispatch: value kinds whose encoder does not exist (Expiry,
Response-Status, Status, and the unassigned kind) raise the fatal
`AttributeError` the source re-raises; a value of the wrong shape for its
kind is likewise a fatal error; an `EncodeError` from a kind encoder
stays an `EncodeError`. -/
def encodeDispatch (kind : Option String) (v : HVal) : Except Err (List Nat) :=
  match kind, v with
  | some "EncodedStringValue", .s t => .ok (encodeEncodedStringValue t)
  | some "UriValue", .s t => .ok (encodeTextString t)
  | some "ContentTypeValue", .ct t ps => .ok (encodeContentTypeValue t ps)
  | some "DateValue", .n v => .ok (encodeLongInteger v)
  | some "BooleanValue", .b v => .ok (encodeBooleanValue v)
  | some "FromValue", .s t => .ok (encodeFromValue t)
  | some "MessageClassValue", .s t => encodeMessageClassValue t
  | some "TextString", .s t => .ok (encodeTextString t)
  | some "MessageTypeValue", .s t => .ok (encodeMessageTypeValue t)
  | some "VersionValue", .s t => .ok (encodeVersionValue t)
  | some "LongInteger", .n v => .ok (encodeLongInteger v)
  | some "PriorityValue", .s t => encodePriorityValue t
  | some "SenderVisibilityValue", .s t => encodeSenderVisibilityValue t
  | _, _ => .error .runtimeError

/-- Modelled from the spec: the generic `wsp_pdu.Encoder.encode_header`
application-header encoding — a token-text name followed by a text-string
value (a non-string value cannot be text-string encoded and is a fatal
error). -/
def wsp_encode_header (name : String) (v : HVal) : Except Err (List Nat) :=
  match v with
  | .s t => .ok (encodeTokenText name ++ encodeTextString t)
  | _ => .error .runtimeError

/-- `MMSEncoder.encode_header`: scan the registry for the field name; a
well-known name is encoded as its short-integer code followed by its
kind-dispatched value; otherwise the generic application-header encoding
is used. -/
def encode_header (name : String) (v : HVal) : Except Err (List Nat) :=
  match fieldByName name with
  | some (code, kind) =>
    (match encodeDispatch kind v with
     | .ok bs => .ok (encodeShortInteger code ++ bs)
     | .error e => .error e)
  | none => wsp_encode_header name v

/-- `MMSEncoder.encodeMMSFieldName`: the short-integer code of a
well-known MMS field name; unknown names raise `EncodeError`. -/
def encodeMMSFieldName (name : String) : Except Err (List Nat) :=
  match fieldByName name with
  | some (code, _) => .ok (encodeShortInteger code)
  | none => .error .encodeError

/-! ## Header encoding (source lines 536-628) -/

/-- One step of the `X-Mms-` alias normalization loop: when the alias key
is present its value is stored under the canonical key (updating in place
or appending) and the alias key is deleted. -/
def normAlias (h : Headers) (aliasName target : String) : Headers :=
  match hGet h aliasName with
  | some v => hDel (hInsert h target v) aliasName
  | none => h

/-- The `for hdr in headers_to_encode` loop body: every remaining header
except Content-Type is encoded, in the mapping's order. -/
def encodeRestHeaders : Headers → Except Err (List Nat)
  | [] => .ok []
  | (k, v) :: rest =>
    if k = "Content-Type" then encodeRestHeaders rest
    else
      match encode_header k v with
      | .error e => .error e
      | .ok bs =>
        match encodeRestHeaders rest with
        | .error e => .error e
        | .ok ms => .ok (bs ++ ms)

/-- The in-place header-dictionary rewriting that opens
`encode_message_header`: normalize `X-Mms-` aliases, default-fill
Message-Type (downgrading `m-send-req` to `m-retrieve-conf` when none of
the keys the source checks — `To`, `Cc`, and the misspelled `Bc` — is
present), Transaction-Id (from the drawn random number) and MMS-Version,
in the source's order. -/
def headerDefaults (h0 : Headers) (rand : Nat) : Headers :=
  let h1 := normAlias h0 "X-Mms-Message-Type" "Message-Type"
  let h2 := normAlias h1 "X-Mms-Transaction-Id" "Transaction-Id"
  let h3 := normAlias h2 "X-Mms-Version" "MMS-Version"
  let h4 := if hMem h3 "Message-Type" then h3
            else hInsert h3 "Message-Type" (.s "m-retrieve-conf")
  let h5 := if hGet h4 "Message-Type" = some (.s "m-send-req") ∧
               ¬ (hMem h4 "To" ∨ hMem h4 "Cc" ∨ hMem h4 "Bc") then
              hInsert h4 "Message-Type" (.s "m-retrieve-conf")
            else h4
  let h6 := if hMem h5 "Transaction-Id" then h5
            else hInsert h5 "Transaction-Id" (.s (toString rand))
  if hMem h6 "MMS-Version" then h6
  else hInsert h6 "MMS-Version" (.s "1.0")

/-- `MMSEncoder.encode_message_header`: after the alias normalization and
default filling, emit Message-Type, Transaction-Id, MMS-Version in that
order, deleting each from the mapping; emit every remaining header except
Content-Type; finally emit Content-Type through its field code and
content-type-value encoding.  The mutated header mapping (the message's
own dictionary) is returned alongside the bytes. -/
def delFirstThree (h : Headers) : Headers :=
  hDel (hDel (hDel h "Message-Type") "Transaction-Id") "MMS-Version"

def encode_message_header (m : MMSMessage) (rand : Nat) :
    Except Err (List Nat × Headers) :=
  match hGet (headerDefaults m.headers rand) "Message-Type",
        hGet (headerDefaults m.headers rand) "Transaction-Id",
        hGet (headerDefaults m.headers rand) "MMS-Version" with
  | some mtv, some tidv, some verv =>
    (match encode_header "Message-Type" mtv with
     | .error e => .error e
     | .ok e1 =>
       match encode_header "Transaction-Id" tidv with
       | .error e => .error e
       | .ok e2 =>
         match encode_header "MMS-Version" verv with
         | .error e => .error e
         | .ok e3 =>
           match encodeRestHeaders (delFirstThree (headerDefaults m.headers rand)) with
           | .error e => .error e
           | .ok mid =>
             match hGet (delFirstThree (headerDefaults m.headers rand)) "Content-Type" with
             | some (.ct t ps) =>
               (match encodeMMSFieldName "Content-Type" with
                | .error e => .error e
                | .ok fb =>
                  .ok (e1 ++ e2 ++ e3 ++ mid ++ fb ++ encodeContentTypeValue t ps,
                       delFirstThree (headerDefaults m.headers rand)))
             | some _ => .error .runtimeError
             | none => .error .runtimeError)
  | _, _, _ => .error .runtimeError

/-! ## Body encoding (source lines 630-728) -/

/-- The `num_entries` count of `encode_message_body`: one for the SMIL
part, the per-page part counts, and one per raw data part attached to the
message. -/
def encodeBodyNumEntries (m : MMSMessage) : Nat :=
  1 + (m.pages.map numberOfParts).sum + m.dataParts.length

/-- The synthesized presentation part: the SMIL bytes under content type
`application/smil` with the fixed Content-ID header. -/
def smilPart (m : MMSMessage) : DataPart :=
  let p0 : DataPart := ⟨"", [], hEmpty, []⟩
  let p1 := setData p0 (smilBytes m) "application/smil"
  { p1 with headers := hInsert p1.headers "Content-ID" (.s "<0000>") }

/-- The `parts` list gathered by `encode_message_body`: the SMIL part,
then for each page its present image, audio, and text parts.  The
message's raw data parts are counted in `encodeBodyNumEntries` but never
gathered here. -/
def encodeBodyParts (m : MMSMessage) : List DataPart :=
  smilPart m ::
    (m.pages.map (fun p => [p.image, p.audio, p.text].filterMap id)).flatten

/-- The additional-header encoding loop of a part: every header except
Content-Type through the generic WSP header encoder, in mapping order. -/
def encodePartHeaders : Headers → Except Err (List Nat)
  | [] => .ok []
  | (k, v) :: rest =>
    if k = "Content-Type" then encodePartHeaders rest
    else
      match wsp_encode_header k v with
      | .error e => .error e
      | .ok bs =>
        match encodePartHeaders rest with
        | .error e => .error e
        | .ok ms => .ok (bs ++ ms)

/-- One part's emission: headers-length and data-length variable-length
integers, the content-type bytes, the other-header bytes, then the raw
payload. The part's Content-Type header entry must be the content-type
tuple. -/
def encodeOnePart (p : DataPart) : Except Err (List Nat) :=
  match hGet p.headers "Content-Type" with
  | some (.ct t ps) =>
    let ctb := encodeContentTypeValue t ps
    (match encodePartHeaders p.headers with
     | .error e => .error e
     | .ok phb =>
       .ok (encodeUintvar (ctb.length + phb.length) ++
            encodeUintvar p.data.length ++ ctb ++ phb ++ p.data))
  | _ => .error .runtimeError

/-- The `for part in parts` emission loop. -/
def encodePartsList : List DataPart → Except Err (List Nat)
  | [] => .ok []
  | p :: rest =>
    match encodeOnePart p with
    | .error e => .error e
    | .ok bs =>
      match encodePartsList rest with
      | .error e => .error e
      | .ok ms => .ok (bs ++ ms)

/-- `MMSEncoder.encode_message_body`: the part count as a variable-length
integer, then the gathered parts in order. -/
def encode_message_body (m : MMSMessage) : Except Err (List Nat) :=
  match encodePartsList (encodeBodyParts m) with
  | .error e => .error e
  | .ok bs => .ok (encodeUintvar (encodeBodyNumEntries m) ++ bs)

/-- `MMSEncoder.encode`: the header block then the body block; the
returned message is the encoder's `self._mms_message`, i.e. the input
message whose header dictionary was mutated by
`encode_message_header`. -/
def encode (m : MMSMessage) (rand : Nat) :
    Except Err (List Nat × MMSMessage) :=
  match encode_message_header m rand with
  | .error e => .error e
  | .ok (hb, h') =>
    match encode_message_body { m with headers := h' } with
    | .error e => .error e
    | .ok bb => .ok (hb ++ bb, { m with headers := h' })

/-! ## Concrete messages used as inputs of the evaluation theorems -/

/-- A simple text part attached directly to a message. -/
def samplePart : DataPart :=
  setData ⟨"", [], hEmpty, []⟩ (strB "hi") "text/plain"

/-- A well-formed message: the headers include Content-Type, a
destination and the three leading headers, and one raw data part is
attached. -/
def M1 : MMSMessage :=
  { headers := [("Message-Type", .s "m-send-req"), ("To", .s "a"),
                ("Transaction-Id", .s "1234"), ("MMS-Version", .s "1.0"),
                ("Content-Type", .ct "application/vnd.wap.multipart.related" [])]
    dataParts := [samplePart]
    pages := [] }

/-- A message whose only destination header is Bcc. -/
def M3 : MMSMessage :=
  { headers := [("Message-Type", .s "m-send-req"), ("Bcc", .s "x"),
                ("Transaction-Id", .s "1"), ("MMS-Version", .s "1.0"),
                ("Content-Type", .ct "a/b" [])]
    dataParts := []
    pages := [] }

/-- C10: decoding the empty byte sequence does not return a Message and
does not end through a handled `DecodeFailure` or `CursorExhausted`: the
header loop breaks on the first exhaustion before its `header` variable
is ever assigned, and the post-loop Content-Type check then reads that
unassigned variable, raising an unhandled name-resolution error. -/
theorem c10_empty_decode_name_error :
    decode_data [] = .error .nameError := by
  rfl

/-- C8: for a cursor whose next byte is `b`, `decodeMessageTypeValue`
consumes `b` and returns the fixed name from the seven-entry table when
the table assigns one (0x82 yields `m-notification-ind`); for any other
byte it returns the `<unknown>` sentinel without consuming, so the next
read still sees `b`. -/
theorem c8_message_type_value :
    ∀ b rest, decodeMessageTypeValue (b :: rest) =
      match message_types b with
      | some name => (.ok name, rest)
      | none => (.ok "<unknown>", b :: rest) := by
  intro b rest
  cases h : message_types b <;> simp [decodeMessageTypeValue, h]

/-- C9: for a cursor whose next byte is `b`, `decodeBooleanValue` returns
true consuming `b` when `b = 0x80`, false consuming `b` when `b = 0x81`,
and for any other `b` raises `DecodeError` leaving the cursor unchanged,
so the next read still returns `b`. -/
theorem c9_boolean_value :
    ∀ b rest, decodeBooleanValue (b :: rest) =
      if b = 128 then (.ok true, rest)
      else if b = 129 then (.ok false, rest)
      else (.error .decodeError, b :: rest) := by
  intro b rest
  by_cases h1 : b = 128 <;> by_cases h2 : b = 129 <;>
    simp [decodeBooleanValue, h1, h2]

/-- C3 (the code, evaluated at the claim's failing input): encoding a
message whose Message-Type is `m-send-req` and whose only destination
header is `Bcc` emits Message-Type `m-retrieve-conf` (bytes 0x8c 0x84):
the source checks the misspelled key `Bc` instead of `Bcc`, so the
presence of Bcc does not prevent the downgrade the claim excludes. -/
theorem c3_bcc_only_is_downgraded :
    (encode_message_header M3 0).map (fun r => r.1.take 2) =
      .ok [0x8c, 0x84] := by
  rfl

/-- C2 (the code, evaluated at the claim's failing input): for a message
with one raw data part and no pages, the emitted leading count is 2 while
the part list gathered for emission has exactly one element (the
synthesized SMIL part); consequently decoding the emitted body reads past
its end looking for the second part and raises an unhandled exhaustion. -/
theorem c2_count_exceeds_emitted_parts :
    encodeBodyNumEntries M1 = 2 ∧
    (encodeBodyParts M1).length = 1 ∧
    (encode_message_body M1).map
        (fun b => ((decodeUintvar b).1, decode_message_body b)) =
      .ok (.ok 2, .error .stopIteration) := by
  exact ⟨rfl, rfl, rfl⟩

/-- C1 (the code, evaluated at the claim's failing input): for the
well-formed message `M1` (headers including Content-Type, one data part),
decoding the bytes produced by `encode` does not yield a Message at all:
the body declares two parts but contains only the synthesized SMIL part,
so the body decoder raises an unhandled exhaustion. -/
theorem c1_roundtrip_crashes :
    (encode M1 7777).map (fun r => decode_data r.1) =
      .ok (.error .stopIteration) := by
  rfl

/-! ## Header-map lemmas for the mutation analysis of `encode` -/

/-- The six keys `encode_message_header` removes from (or rewrites in)
the caller's header dictionary. -/
def mutatedKeys : List String :=
  ["X-Mms-Message-Type", "X-Mms-Transaction-Id", "X-Mms-Version",
   "Message-Type", "Transaction-Id", "MMS-Version"]

/-- Drop every entry whose key lies in `L`. -/
def keyFilter (L : List String) : Headers → Headers
  | [] => []
  | kv :: t => if kv.1 ∈ L then keyFilter L t else kv :: keyFilter L t

theorem keyFilter_append (L : List String) :
    ∀ a b : Headers, keyFilter L (a ++ b) = keyFilter L a ++ keyFilter L b
  | [], _ => rfl
  | kv :: t, b => by
    by_cases hkv : kv.1 ∈ L <;>
      simp [keyFilter, hkv, keyFilter_append L t b]

theorem keyFilter_hInsert (L : List String) (k : String)
    (v : HVal) (hk : k ∈ L) :
    ∀ h : Headers, keyFilter L (hInsert h k v) = keyFilter L h := by
  have hmap : ∀ h : Headers,
      keyFilter L (h.map (fun kv => if kv.1 = k then (k, v) else kv)) =
        keyFilter L h := by
    intro h
    induction h with
    | nil => rfl
    | cons kv t ih =>
      by_cases hkv : kv.1 = k
      · have hkvL : kv.1 ∈ L := by rw [hkv]; exact hk
        simp [keyFilter, hkv, hk, hkvL, ih]
      · by_cases hkvL : kv.1 ∈ L <;> simp [keyFilter, hkv, hkvL, ih]
  intro h
  unfold hInsert
  by_cases hm : hMem h k <;> simp only [hm, if_true, if_false]
  · exact hmap h
  · simp [keyFilter_append, keyFilter, hk]

theorem keyFilter_hDel (L : List String) (a : String) (ha : a ∈ L) :
    ∀ h : Headers, keyFilter L (hDel h a) = keyFilter L h
  | [] => rfl
  | kv :: t => by
    have ih := keyFilter_hDel L a ha t
    by_cases hkv : kv.1 = a
    · have hkvL : kv.1 ∈ L := by rw [hkv]; exact ha
      simpa [hDel, keyFilter, List.filter_cons, hkv, hkvL, ha] using ih
    · by_cases hkvL : kv.1 ∈ L <;>
        simp [hDel, keyFilter, List.filter_cons, hkv, hkvL, ← ih]

/-- No entry of the header map carries the key `a`. -/
def NoKey (h : Headers) (a : String) : Prop :=
  ∀ kv ∈ h, kv.1 ≠ a

theorem noKey_hInsert {h : Headers} {k : String} {v : HVal} {a : String}
    (hne : k ≠ a) (hh : NoKey h a) : NoKey (hInsert h k v) a := by
  unfold hInsert
  split
  · intro kv hkv
    obtain ⟨kv0, hkv0, hmap⟩ := List.mem_map.mp hkv
    by_cases h0 : kv0.1 = k
    · rw [if_pos h0] at hmap
      rw [← hmap]
      exact hne
    · rw [if_neg h0] at hmap
      rw [← hmap]
      exact hh kv0 hkv0
  · intro kv hkv
    rcases List.mem_append.mp hkv with hold | hnew
    · exact hh kv hold
    · rw [List.mem_singleton.mp hnew]
      exact hne

theorem noKey_hDel_self (h : Headers) (a : String) : NoKey (hDel h a) a := by
  intro kv hkv
  have := (List.mem_filter.mp hkv).2
  simpa using this

theorem noKey_hDel {h : Headers} {k a : String} (hh : NoKey h a) :
    NoKey (hDel h k) a := by
  intro kv hkv
  exact hh kv (List.mem_filter.mp hkv).1

theorem noKey_normAlias_self {h : Headers} {a t : String} :
    NoKey (normAlias h a t) a := by
  unfold normAlias
  cases hg : hGet h a with
  | none =>
    unfold hGet at hg
    have := List.find?_eq_none.mp (by
      cases hf : h.find? (fun kv => kv.1 = a) with
      | none => rfl
      | some x => rw [hf] at hg; exact absurd hg (by simp))
    intro kv hkv
    have := this kv hkv
    simpa using this
  | some v => exact noKey_hDel_self _ a

theorem noKey_normAlias_other {h : Headers} {a t a' : String}
    (h2 : t ≠ a') (hh : NoKey h a') :
    NoKey (normAlias h a t) a' := by
  unfold normAlias
  cases hGet h a with
  | none => exact hh
  | some v => exact noKey_hDel (noKey_hInsert h2 hh)

theorem noKey_ite {c : Prop} [Decidable c] {x y : Headers} {a : String}
    (hx : NoKey x a) (hy : NoKey y a) : NoKey (if c then x else y) a := by
  split <;> assumption

theorem hDel_eq_keyFilter (a : String) :
    ∀ h : Headers, hDel h a = keyFilter [a] h
  | [] => rfl
  | kv :: t => by
    have ih := hDel_eq_keyFilter a t
    by_cases hkv : kv.1 = a <;>
      simp [hDel, keyFilter, List.filter_cons, hkv] <;>
      simp [hDel] at ih <;> exact ih

theorem keyFilter_keyFilter (L L' : List String) :
    ∀ h : Headers, keyFilter L (keyFilter L' h) = keyFilter (L' ++ L) h
  | [] => rfl
  | kv :: t => by
    have ih := keyFilter_keyFilter L L' t
    by_cases h2 : kv.1 ∈ L'
    · simp [keyFilter, h2, List.mem_append, ih]
    · by_cases h1 : kv.1 ∈ L <;> simp [keyFilter, h1, h2, ih]

theorem keyFilter_narrow :
    ∀ h : Headers, NoKey h "X-Mms-Message-Type" →
      NoKey h "X-Mms-Transaction-Id" → NoKey h "X-Mms-Version" →
      keyFilter ["Message-Type", "Transaction-Id", "MMS-Version"] h =
        keyFilter mutatedKeys h
  | [] => by intro _ _ _; rfl
  | kv :: t => by
    intro n1 n2 n3
    have ih := keyFilter_narrow t (fun x hx => n1 x (List.mem_cons_of_mem _ hx))
      (fun x hx => n2 x (List.mem_cons_of_mem _ hx))
      (fun x hx => n3 x (List.mem_cons_of_mem _ hx))
    have e1 := n1 kv (List.mem_cons_self _ _)
    have e2 := n2 kv (List.mem_cons_self _ _)
    have e3 := n3 kv (List.mem_cons_self _ _)
    by_cases hm : kv.1 ∈ ["Message-Type", "Transaction-Id", "MMS-Version"]
    · have hm6 : kv.1 ∈ mutatedKeys := by
        simp only [List.mem_cons, List.mem_singleton] at hm
        simp only [mutatedKeys, List.mem_cons, List.mem_singleton]
        tauto
      simp [keyFilter, hm, hm6, ih]
    · have hm6 : kv.1 ∉ mutatedKeys := by
        simp only [List.mem_cons, List.mem_singleton] at hm
        simp only [mutatedKeys, List.mem_cons, List.mem_singleton]
        push_neg at hm ⊢
        exact ⟨e1, e2, e3, hm.1, hm.2.1, hm.2.2⟩
      simp [keyFilter, hm, hm6, ih]

theorem keyFilter_ite_hInsert_right {c : Prop} [Decidable c]
    (L : List String) (x : Headers) (k : String) (v : HVal) (hk : k ∈ L) :
    keyFilter L (if c then x else hInsert x k v) = keyFilter L x := by
  split
  · rfl
  · exact keyFilter_hInsert L k v hk x

theorem keyFilter_ite_hInsert_left {c : Prop} [Decidable c]
    (L : List String) (x : Headers) (k : String) (v : HVal) (hk : k ∈ L) :
    keyFilter L (if c then hInsert x k v else x) = keyFilter L x := by
  split
  · exact keyFilter_hInsert L k v hk x
  · rfl

theorem keyFilter_cons_mem (a : String) (L : List String) (ha : a ∈ L) :
    ∀ h : Headers, keyFilter (a :: L) h = keyFilter L h
  | [] => rfl
  | kv :: t => by
    have ih := keyFilter_cons_mem a L ha t
    by_cases hm : kv.1 ∈ L
    · simp [keyFilter, hm, ih]
    · have hne : kv.1 ≠ a := fun hc => hm (hc ▸ ha)
      simp [keyFilter, hm, hne, ih]

theorem keyFilter_normAlias (L : List String) (a t : String)
    (haL : a ∈ L) (htL : t ∈ L) (h : Headers) :
    keyFilter L (normAlias h a t) = keyFilter L h := by
  unfold normAlias
  cases hGet h a with
  | none => rfl
  | some v =>
    show keyFilter L (hDel (hInsert h t v) a) = keyFilter L h
    rw [hDel_eq_keyFilter, keyFilter_keyFilter]
    rw [show ([a] ++ L : List String) = a :: L from rfl]
    rw [keyFilter_hInsert (a :: L) t v (List.mem_cons_of_mem a htL)]
    exact keyFilter_cons_mem a L haL h

theorem tripleDel_headerDefaults (h0 : Headers) (rand : Nat) :
    hDel (hDel (hDel (headerDefaults h0 rand) "Message-Type")
        "Transaction-Id") "MMS-Version" =
      keyFilter mutatedKeys h0 := by
  set h1 := normAlias h0 "X-Mms-Message-Type" "Message-Type" with e1
  set h2 := normAlias h1 "X-Mms-Transaction-Id" "Transaction-Id" with e2
  set h3 := normAlias h2 "X-Mms-Version" "MMS-Version" with e3
  set h4 := (if hMem h3 "Message-Type" then h3
             else hInsert h3 "Message-Type" (HVal.s "m-retrieve-conf")) with e4
  set h5 := (if hGet h4 "Message-Type" = some (.s "m-send-req") ∧
                ¬ (hMem h4 "To" ∨ hMem h4 "Cc" ∨ hMem h4 "Bc") then
               hInsert h4 "Message-Type" (HVal.s "m-retrieve-conf")
             else h4) with e5
  set h6 := (if hMem h5 "Transaction-Id" then h5
             else hInsert h5 "Transaction-Id" (HVal.s (toString rand))) with e6
  have hdef : headerDefaults h0 rand =
      (if hMem h6 "MMS-Version" then h6
       else hInsert h6 "MMS-Version" (HVal.s "1.0")) := rfl
  have n1A1 : NoKey h1 "X-Mms-Message-Type" := noKey_normAlias_self
  have n2A1 : NoKey h2 "X-Mms-Message-Type" :=
    noKey_normAlias_other (by decide) n1A1
  have n2A2 : NoKey h2 "X-Mms-Transaction-Id" := noKey_normAlias_self
  have n3A1 : NoKey h3 "X-Mms-Message-Type" :=
    noKey_normAlias_other (by decide) n2A1
  have n3A2 : NoKey h3 "X-Mms-Transaction-Id" :=
    noKey_normAlias_other (by decide) n2A2
  have n3A3 : NoKey h3 "X-Mms-Version" := noKey_normAlias_self
  have n4A1 : NoKey h4 "X-Mms-Message-Type" :=
    noKey_ite n3A1 (noKey_hInsert (by decide) n3A1)
  have n4A2 : NoKey h4 "X-Mms-Transaction-Id" :=
    noKey_ite n3A2 (noKey_hInsert (by decide) n3A2)
  have n4A3 : NoKey h4 "X-Mms-Version" :=
    noKey_ite n3A3 (noKey_hInsert (by decide) n3A3)
  have n5A1 : NoKey h5 "X-Mms-Message-Type" :=
    noKey_ite (noKey_hInsert (by decide) n4A1) n4A1
  have n5A2 : NoKey h5 "X-Mms-Transaction-Id" :=
    noKey_ite (noKey_hInsert (by decide) n4A2) n4A2
  have n5A3 : NoKey h5 "X-Mms-Version" :=
    noKey_ite (noKey_hInsert (by decide) n4A3) n4A3
  have n6A1 : NoKey h6 "X-Mms-Message-Type" :=
    noKey_ite n5A1 (noKey_hInsert (by decide) n5A1)
  have n6A2 : NoKey h6 "X-Mms-Transaction-Id" :=
    noKey_ite n5A2 (noKey_hInsert (by decide) n5A2)
  have n6A3 : NoKey h6 "X-Mms-Version" :=
    noKey_ite n5A3 (noKey_hInsert (by decide) n5A3)
  have n7A1 : NoKey (headerDefaults h0 rand) "X-Mms-Message-Type" := by
    rw [hdef]; exact noKey_ite n6A1 (noKey_hInsert (by decide) n6A1)
  have n7A2 : NoKey (headerDefaults h0 rand) "X-Mms-Transaction-Id" := by
    rw [hdef]; exact noKey_ite n6A2 (noKey_hInsert (by decide) n6A2)
  have n7A3 : NoKey (headerDefaults h0 rand) "X-Mms-Version" := by
    rw [hdef]; exact noKey_ite n6A3 (noKey_hInsert (by decide) n6A3)
  rw [hDel_eq_keyFilter, hDel_eq_keyFilter, hDel_eq_keyFilter,
      keyFilter_keyFilter, keyFilter_keyFilter]
  simp only [List.cons_append, List.nil_append]
  rw [keyFilter_narrow (headerDefaults h0 rand) n7A1 n7A2 n7A3]
  rw [hdef]
  rw [keyFilter_ite_hInsert_right mutatedKeys h6 _ _ (by decide)]
  rw [e6, keyFilter_ite_hInsert_right mutatedKeys h5 _ _ (by decide)]
  rw [e5, keyFilter_ite_hInsert_left mutatedKeys h4 _ _ (by decide)]
  rw [e4, keyFilter_ite_hInsert_right mutatedKeys h3 _ _ (by decide)]
  rw [e3, keyFilter_normAlias mutatedKeys _ _ (by decide) (by decide)]
  rw [e2, keyFilter_normAlias mutatedKeys _ _ (by decide) (by decide)]
  rw [e1, keyFilter_normAlias mutatedKeys _ _ (by decide) (by decide)]

theorem encode_message_header_headers (m : MMSMessage) (rand : Nat)
    (bs : List Nat) (h' : Headers)
    (heq : encode_message_header m rand = .ok (bs, h')) :
    h' = keyFilter mutatedKeys m.headers := by
  unfold encode_message_header at heq
  repeat' split at heq
  all_goals try exact Except.noConfusion heq
  injection heq with h2
  injection h2 with hb hh
  rw [← hh]
  exact tripleDel_headerDefaults m.headers rand

/-- C4 counterexample: `encode` is not pure in its input message — after
a successful encode of `M1`, the message's header map is no longer the
map it held before the call (Message-Type, Transaction-Id and
MMS-Version have been deleted from it). -/
theorem c4_encode_mutates_headers :
    (encode M1 7777).toOption.map (fun r => r.2.headers) ≠
      some M1.headers := by
  decide

/-- C4 (amended): a successful `encode` performs no I/O and leaves the
message's data-part and page collections untouched, but it mutates the
message's header map: the map after the call is exactly the map before
the call with the keys `X-Mms-Message-Type`, `X-Mms-Transaction-Id`,
`X-Mms-Version`, `Message-Type`, `Transaction-Id` and `MMS-Version`
removed (the canonical three are emitted and then deleted; aliases are
renamed into them; synthesized defaults are likewise deleted after
emission). -/
theorem c4_amended_encode_mutation :
    ∀ m rand, match encode m rand with
      | .ok (_, m') =>
          m'.headers = keyFilter mutatedKeys m.headers ∧
          m'.dataParts = m.dataParts ∧ m'.pages = m.pages
      | .error _ => True := by
  intro m rand
  cases henc : encode m rand with
  | error e => trivial
  | ok r =>
    obtain ⟨bs, m'⟩ := r
    unfold encode at henc
    split at henc
    · exact Except.noConfusion henc
    · next hb h' hemh =>
      split at henc
      · exact Except.noConfusion henc
      · injection henc with h2
        injection h2 with hbs hm'
        rw [← hm']
        exact ⟨encode_message_header_headers m rand hb h' hemh, rfl, rfl⟩

/-- C7: whenever `encode_message_header` succeeds, the emitted bytes
decompose as the encodings of Message-Type, Transaction-Id and
MMS-Version first, in that exact order, then the encodings of every
remaining supplied header except Content-Type (in the mapping's order),
and finally Content-Type emitted last through its field code and its
content-type-value encoding. -/
theorem c7_header_emission_order :
    ∀ m rand, match encode_message_header m rand with
      | .ok (bytes, h') =>
          ∃ mtv tidv verv e1 e2 e3 mid fb t ps,
            hGet (headerDefaults m.headers rand) "Message-Type" = some mtv ∧
            hGet (headerDefaults m.headers rand) "Transaction-Id" = some tidv ∧
            hGet (headerDefaults m.headers rand) "MMS-Version" = some verv ∧
            encode_header "Message-Type" mtv = .ok e1 ∧
            encode_header "Transaction-Id" tidv = .ok e2 ∧
            encode_header "MMS-Version" verv = .ok e3 ∧
            encodeRestHeaders h' = .ok mid ∧
            hGet h' "Content-Type" = some (.ct t ps) ∧
            encodeMMSFieldName "Content-Type" = .ok fb ∧
            bytes = e1 ++ e2 ++ e3 ++ mid ++ fb ++ encodeContentTypeValue t ps
      | .error _ => True := by
  intro m rand
  cases hmt : hGet (headerDefaults m.headers rand) "Message-Type" with
  | none => simp [encode_message_header, hmt]
  | some mtv =>
  cases htid : hGet (headerDefaults m.headers rand) "Transaction-Id" with
  | none => simp [encode_message_header, hmt, htid]
  | some tidv =>
  cases hver : hGet (headerDefaults m.headers rand) "MMS-Version" with
  | none => simp [encode_message_header, hmt, htid, hver]
  | some verv =>
  cases he1 : encode_header "Message-Type" mtv with
  | error e => simp [encode_message_header, hmt, htid, hver, he1]
  | ok e1 =>
  cases he2 : encode_header "Transaction-Id" tidv with
  | error e => simp [encode_message_header, hmt, htid, hver, he1, he2]
  | ok e2 =>
  cases he3 : encode_header "MMS-Version" verv with
  | error e => simp [encode_message_header, hmt, htid, hver, he1, he2, he3]
  | ok e3 =>
  cases hmid : encodeRestHeaders (delFirstThree (headerDefaults m.headers rand)) with
  | error e => simp [encode_message_header, hmt, htid, hver, he1, he2, he3, hmid]
  | ok mid =>
  cases hct : hGet (delFirstThree (headerDefaults m.headers rand)) "Content-Type" with
  | none => simp [encode_message_header, hmt, htid, hver, he1, he2, he3, hmid, hct]
  | some v =>
  cases v with
  | s t => simp [encode_message_header, hmt, htid, hver, he1, he2, he3, hmid, hct]
  | b t => simp [encode_message_header, hmt, htid, hver, he1, he2, he3, hmid, hct]
  | n t => simp [encode_message_header, hmt, htid, hver, he1, he2, he3, hmid, hct]
  | ct t ps =>
  cases hfb : encodeMMSFieldName "Content-Type" with
  | error e =>
    simp [encode_message_header, hmt, htid, hver, he1, he2, he3, hmid, hct, hfb]
  | ok fb =>
    simp only [encode_message_header, hmt, htid, hver, he1, he2, he3, hmid, hct, hfb]
    exact ⟨mtv, tidv, verv, e1, e2, e3, mid, fb, t, ps,
      rfl, rfl, rfl, he1, he2, he3, rfl, rfl, rfl, rfl⟩

/-! ## Consumption bounds: no decoder raises the fuel marker and none
grows the cursor -/

/-- A decoding step is tame when it never reports fuel exhaustion and
never leaves more bytes than it was given. -/
def Tame {α : Type} (f : List Nat → DecR α) : Prop :=
  ∀ s, (f s).1 ≠ .error .fuel ∧ (f s).2.length ≤ s.length

theorem splitAtZero_length :
    ∀ {s pre post : List Nat}, splitAtZero s = some (pre, post) →
      post.length < s.length := by
  intro s
  induction s with
  | nil => intro pre post h; exact absurd h (by simp [splitAtZero])
  | cons b rest ih =>
    intro pre post h
    unfold splitAtZero at h
    by_cases hb : b = 0
    · rw [if_pos hb] at h
      injection h with h'
      injection h' with h1 h2
      rw [← h2]
      simp
    · rw [if_neg hb] at h
      cases hsp : splitAtZero rest with
      | none => rw [hsp] at h; exact absurd h (by simp)
      | some pp =>
        obtain ⟨pre0, post0⟩ := pp
        rw [hsp] at h
        injection h with h'
        injection h' with h1 h2
        have := ih hsp
        rw [← h2]
        simp only [List.length_cons]
        omega

theorem tame_decodeUintvarAux : ∀ (acc : Nat), Tame (decodeUintvarAux acc) := by
  intro acc s
  induction s generalizing acc with
  | nil => simp [decodeUintvarAux]
  | cons b rest ih =>
    by_cases hb : 128 ≤ b
    · have := ih (acc * 128 + (b - 128))
      simp only [decodeUintvarAux, if_pos hb]
      exact ⟨this.1, by have := this.2; simp only [List.length_cons]; omega⟩
    · simp [decodeUintvarAux, hb]

theorem tame_decodeUintvar : Tame decodeUintvar := by
  intro s
  exact tame_decodeUintvarAux 0 s

theorem tame_readN : ∀ (n : Nat), Tame (readN n) := by
  intro n
  induction n with
  | zero => intro s; simp [readN]
  | succ k ih =>
    intro s
    cases s with
    | nil => simp [readN]
    | cons b rest =>
      have hk := ih rest
      simp only [readN]
      rcases hrn : readN k rest with ⟨r, s'⟩
      rw [hrn] at hk
      simp only [] at hk
      cases r with
      | ok bs =>
        exact ⟨by simp, by simp only [List.length_cons]; exact le_trans hk.2 (by omega)⟩
      | error e =>
        exact ⟨by simpa using hk.1, by simp only [List.length_cons]; exact le_trans hk.2 (by omega)⟩

theorem tame_decodeValueLength : Tame decodeValueLength := by
  intro s
  cases s with
  | nil => simp [decodeValueLength]
  | cons b rest =>
    by_cases h30 : b ≤ 30
    · simp [decodeValueLength, h30]
    · by_cases h31 : b = 31
      · have := tame_decodeUintvarAux 0 rest
        simp only [decodeValueLength, if_neg h30, if_pos h31]
        exact ⟨this.1, by have := this.2; simp only [List.length_cons]; omega⟩
      · simp [decodeValueLength, h30, h31]

theorem tame_decodeTextString : Tame decodeTextString := by
  intro s
  unfold decodeTextString
  have ht : (if s.head? = some 127 then s.tail else s).length ≤ s.length := by
    split
    · cases s <;> simp
    · exact le_refl _
  cases hsp : splitAtZero (if s.head? = some 127 then s.tail else s) with
  | none => simp
  | some pp =>
    obtain ⟨pre, post⟩ := pp
    have := splitAtZero_length hsp
    exact ⟨by simp, by show post.length ≤ s.length; omega⟩

theorem tame_decodeTokenText : Tame decodeTokenText := by
  intro s
  cases s with
  | nil => simp [decodeTokenText]
  | cons b rest =>
    by_cases hb : b ≤ 31 ∨ 127 ≤ b
    · simp [decodeTokenText, hb]
    · simp only [decodeTokenText, if_neg hb]
      cases hsp : splitAtZero (b :: rest) with
      | none => simp
      | some pp =>
        obtain ⟨pre, post⟩ := pp
        have := splitAtZero_length hsp
        exact ⟨by simp, by show post.length ≤ (b :: rest).length; omega⟩

theorem tame_decodeWellKnownCharset : Tame decodeWellKnownCharset := by
  intro s
  cases s with
  | nil => simp [decodeWellKnownCharset]
  | cons b rest =>
    by_cases hb : 128 ≤ b <;> simp [decodeWellKnownCharset, hb]

theorem tame_decodeLongInteger : Tame decodeLongInteger := by
  intro s
  cases s with
  | nil => simp [decodeLongInteger]
  | cons b rest =>
    by_cases hb : 1 ≤ b ∧ b ≤ 30
    · simp only [decodeLongInteger, if_pos hb]
      have hr := tame_readN b rest
      rcases hrn : readN b rest with ⟨r, s'⟩
      rw [hrn] at hr
      simp only [] at hr
      cases r with
      | ok os =>
        exact ⟨by simp, by simp only [List.length_cons]; exact le_trans hr.2 (by omega)⟩
      | error e =>
        exact ⟨by simpa using hr.1, by simp only [List.length_cons]; exact le_trans hr.2 (by omega)⟩
    · simp [decodeLongInteger, hb]

theorem tame_decodeDateValue : Tame decodeDateValue :=
  fun s => tame_decodeLongInteger s

theorem tame_decodeDeltaSecondsValue : Tame decodeDeltaSecondsValue :=
  fun s => tame_decodeLongInteger s

theorem tame_decodeUriValue : Tame decodeUriValue :=
  fun s => tame_decodeTextString s

theorem tame_decodeVersionValue : Tame decodeVersionValue := by
  intro s
  cases s with
  | nil => simp [decodeVersionValue]
  | cons b rest =>
    by_cases hb : 128 ≤ b
    · simp [decodeVersionValue, hb]
    · simp only [decodeVersionValue, if_neg hb]
      have := tame_decodeTextString (b :: rest)
      exact this

theorem parseCTParams_error :
    ∀ (f : Nat) (l : List Nat) {e : Err},
      parseCTParams f l = .error e → e = .decodeError := by
  intro f
  induction f with
  | zero =>
    intro l e h
    cases l with
    | nil => exact absurd h (by simp [parseCTParams])
    | cons b rest =>
      simp only [parseCTParams] at h
      injection h with h'
      exact h'.symm
  | succ k ih =>
    intro l e h
    cases l with
    | nil => exact absurd h (by simp [parseCTParams])
    | cons b rest =>
      simp only [parseCTParams] at h
      cases hsp : splitAtZero (b :: rest) with
      | none =>
        rw [hsp] at h
        injection h with h'
        exact h'.symm
      | some pp =>
        obtain ⟨kk, rest1⟩ := pp
        rw [hsp] at h
        dsimp only at h
        cases hsp2 : splitAtZero rest1 with
        | none =>
          rw [hsp2] at h
          injection h with h'
          exact h'.symm
        | some pp2 =>
          obtain ⟨v, rest2⟩ := pp2
          rw [hsp2] at h
          dsimp only at h
          cases hrec : parseCTParams k rest2 with
          | ok ps => rw [hrec] at h; exact absurd h (by simp)
          | error e2 =>
            rw [hrec] at h
            injection h with h'
            rw [← h']
            exact ih rest2 hrec

theorem tame_decodeContentTypeValue : Tame decodeContentTypeValue := by
  intro s
  cases s with
  | nil => simp [decodeContentTypeValue]
  | cons b rest =>
    by_cases h30 : b ≤ 30
    · simp only [decodeContentTypeValue, if_pos h30]
      have hrd := tame_readN b rest
      rcases hr : readN b rest with ⟨r, s'⟩
      rw [hr] at hrd
      simp only [] at hrd
      cases r with
      | error e =>
        dsimp only
        exact ⟨by simpa using hrd.1, by simp only [List.length_cons]; omega⟩
      | ok block =>
        dsimp only
        rcases ht : decodeTextString block with ⟨rt, sub⟩
        cases rt with
        | error e =>
          dsimp only
          have htx := tame_decodeTextString block
          rw [ht] at htx
          exact ⟨by simpa using htx.1, by simp only [List.length_cons]; omega⟩
        | ok t =>
          dsimp only
          cases hp : parseCTParams sub.length sub with
          | ok ps =>
            dsimp only
            exact ⟨by simp, by simp only [List.length_cons]; omega⟩
          | error e =>
            dsimp only
            have he := parseCTParams_error _ _ hp
            subst he
            exact ⟨by simp, by simp only [List.length_cons]; omega⟩
    · by_cases h31 : b = 31
      · simp only [decodeContentTypeValue, if_neg h30, if_pos h31]
        have huv := tame_decodeUintvarAux 0 rest
        rcases hu : decodeUintvarAux 0 rest with ⟨ru, s1⟩
        rw [hu] at huv
        simp only [] at huv
        cases ru with
        | error e =>
          dsimp only
          exact ⟨by simpa using huv.1, by simp only [List.length_cons]; omega⟩
        | ok len =>
          dsimp only
          have hrd := tame_readN len s1
          rcases hr : readN len s1 with ⟨r, s'⟩
          rw [hr] at hrd
          simp only [] at hrd
          cases r with
          | error e =>
            dsimp only
            exact ⟨by simpa using hrd.1, by simp only [List.length_cons]; omega⟩
          | ok block =>
            dsimp only
            rcases ht : decodeTextString block with ⟨rt, sub⟩
            cases rt with
            | error e =>
              dsimp only
              have htx := tame_decodeTextString block
              rw [ht] at htx
              exact ⟨by simpa using htx.1, by simp only [List.length_cons]; omega⟩
            | ok t =>
              dsimp only
              cases hp : parseCTParams sub.length sub with
              | ok ps =>
                dsimp only
                exact ⟨by simp, by simp only [List.length_cons]; omega⟩
              | error e =>
                dsimp only
                have he := parseCTParams_error _ _ hp
                subst he
                exact ⟨by simp, by simp only [List.length_cons]; omega⟩
      · by_cases h127 : b ≤ 127
        · simp only [decodeContentTypeValue, if_neg h30, if_neg h31, if_pos h127]
          have htx := tame_decodeTextString (b :: rest)
          rcases ht : decodeTextString (b :: rest) with ⟨rt, s'⟩
          rw [ht] at htx
          simp only [] at htx
          cases rt with
          | error e =>
            dsimp only
            exact ⟨by simpa using htx.1, htx.2⟩
          | ok t =>
            dsimp only
            exact ⟨by simp, htx.2⟩
        · simp [decodeContentTypeValue, h30, h31, h127]

theorem tame_decodeEncodedStringValue : Tame decodeEncodedStringValue := by
  intro s
  unfold decodeEncodedStringValue
  have hvl := tame_decodeValueLength s
  rcases hv : decodeValueLength s with ⟨rv, s1⟩
  rw [hv] at hvl
  simp only [] at hvl
  cases rv with
  | error e =>
    cases e with
    | decodeError =>
      dsimp only
      have := tame_decodeTextString s1
      exact ⟨this.1, le_trans this.2 hvl.2⟩
    | stopIteration => dsimp only; exact ⟨by simp, hvl.2⟩
    | encodeError => dsimp only; exact ⟨by simp, hvl.2⟩
    | runtimeError => dsimp only; exact ⟨by simp, hvl.2⟩
    | nameError => dsimp only; exact ⟨by simp, hvl.2⟩
    | fuel => exact absurd rfl hvl.1
  | ok vlen =>
    dsimp only
    have hcs := tame_decodeWellKnownCharset s1
    rcases hc : decodeWellKnownCharset s1 with ⟨rc, s2⟩
    rw [hc] at hcs
    simp only [] at hcs
    cases rc with
    | error e =>
      cases e with
      | decodeError => dsimp only; exact ⟨by simp, le_trans hcs.2 hvl.2⟩
      | stopIteration => dsimp only; exact ⟨by simp, le_trans hcs.2 hvl.2⟩
      | encodeError => dsimp only; exact ⟨by simp, le_trans hcs.2 hvl.2⟩
      | runtimeError => dsimp only; exact ⟨by simp, le_trans hcs.2 hvl.2⟩
      | nameError => dsimp only; exact ⟨by simp, le_trans hcs.2 hvl.2⟩
      | fuel => exact absurd rfl hcs.1
    | ok cs =>
      dsimp only
      have hts := tame_decodeTextString s2
      rcases ht : decodeTextString s2 with ⟨rt, s3⟩
      rw [ht] at hts
      simp only [] at hts
      cases rt with
      | error e =>
        cases e with
        | decodeError =>
          dsimp only
          have := tame_decodeTextString s3
          exact ⟨this.1, le_trans this.2 (le_trans hts.2 (le_trans hcs.2 hvl.2))⟩
        | stopIteration =>
          dsimp only; exact ⟨by simp, le_trans hts.2 (le_trans hcs.2 hvl.2)⟩
        | encodeError =>
          dsimp only; exact ⟨by simp, le_trans hts.2 (le_trans hcs.2 hvl.2)⟩
        | runtimeError =>
          dsimp only; exact ⟨by simp, le_trans hts.2 (le_trans hcs.2 hvl.2)⟩
        | nameError =>
          dsimp only; exact ⟨by simp, le_trans hts.2 (le_trans hcs.2 hvl.2)⟩
        | fuel => exact absurd rfl hts.1
      | ok t =>
        dsimp only
        exact ⟨by simp, le_trans hts.2 (le_trans hcs.2 hvl.2)⟩

theorem tame_decodeBooleanValue : Tame decodeBooleanValue := by
  intro s
  cases s with
  | nil => simp [decodeBooleanValue]
  | cons b rest =>
    by_cases hb : b = 128 ∨ b = 129 <;> simp [decodeBooleanValue, hb]

theorem tame_decodeFromValue : Tame decodeFromValue := by
  intro s
  unfold decodeFromValue
  have hvl := tame_decodeValueLength s
  rcases hv : decodeValueLength s with ⟨rv, s1⟩
  rw [hv] at hvl
  simp only [] at hvl
  cases rv with
  | error e =>
    dsimp only
    exact ⟨by simpa using hvl.1, hvl.2⟩
  | ok vlen =>
    dsimp only
    cases s1 with
    | nil => simpa using hvl.2
    | cons b rest =>
      by_cases hb : b = 129
      · simp only [if_pos hb]
        exact ⟨by simp, by have := hvl.2; simp only [List.length_cons] at this; omega⟩
      · simp only [if_neg hb]
        have := tame_decodeEncodedStringValue rest
        refine ⟨this.1, ?_⟩
        have h2 := this.2
        have h3 := hvl.2
        simp only [List.length_cons] at h3
        omega

theorem tame_decodeMessageClassValue : Tame decodeMessageClassValue := by
  intro s
  cases s with
  | nil => simp [decodeMessageClassValue]
  | cons b rest =>
    simp only [decodeMessageClassValue]
    cases classIdentifiers b with
    | some name => dsimp only; simp
    | none =>
      dsimp only
      exact tame_decodeTokenText (b :: rest)

theorem tame_decodeMessageTypeValue : Tame decodeMessageTypeValue := by
  intro s
  cases s with
  | nil => simp [decodeMessageTypeValue]
  | cons b rest =>
    simp only [decodeMessageTypeValue]
    cases message_types b with
    | some name => dsimp only; simp
    | none => dsimp only; simp

theorem tame_decodePriorityValue : Tame decodePriorityValue := by
  intro s
  cases s with
  | nil => simp [decodePriorityValue]
  | cons b rest =>
    simp only [decodePriorityValue]
    split <;> simp

theorem tame_decodeSenderVisibilityValue : Tame decodeSenderVisibilityValue := by
  intro s
  cases s with
  | nil => simp [decodeSenderVisibilityValue]
  | cons b rest =>
    by_cases hb : b = 128 ∨ b = 129 <;> simp [decodeSenderVisibilityValue, hb]

theorem tame_decodeResponseStatusValue : Tame decodeResponseStatusValue := by
  intro s
  cases s with
  | nil => simp [decodeResponseStatusValue]
  | cons b rest =>
    simp only [decodeResponseStatusValue]
    cases response_status_values b with
    | some name => dsimp only; simp
    | none => dsimp only; simp

theorem tame_decodeStatusValue : Tame decodeStatusValue := by
  intro s
  cases s with
  | nil => simp [decodeStatusValue]
  | cons b rest =>
    simp only [decodeStatusValue]
    cases status_values b with
    | some name => dsimp only; simp
    | none => dsimp only; simp

theorem tame_decodeExpiryValue : Tame decodeExpiryValue := by
  intro s
  unfold decodeExpiryValue
  have hvl := tame_decodeValueLength s
  rcases hv : decodeValueLength s with ⟨rv, s1⟩
  rw [hv] at hvl
  simp only [] at hvl
  cases rv with
  | error e => dsimp only; exact ⟨by simpa using hvl.1, hvl.2⟩
  | ok vlen =>
    dsimp only
    cases s1 with
    | nil => simpa using hvl.2
    | cons b rest =>
      have hlen := hvl.2
      simp only [List.length_cons] at hlen
      by_cases hb : b = 0x80
      · simp only [if_pos hb]
        have := tame_decodeDateValue rest
        exact ⟨this.1, by have := this.2; omega⟩
      · simp only [if_neg hb]
        by_cases hb2 : b = 0x81
        · simp only [if_pos hb2]
          have := tame_decodeDeltaSecondsValue rest
          exact ⟨this.1, by have := this.2; omega⟩
        · simp only [if_neg hb2]
          exact ⟨by simp, by omega⟩

theorem tame_wrapD {α : Type} {g : α → HVal} {f : List Nat → DecR α}
    (hf : Tame f) : Tame (wrapD g f) := by
  intro s
  have hs := hf s
  unfold wrapD
  rcases h : f s with ⟨r, s'⟩
  rw [h] at hs
  simp only [] at hs
  cases r <;> dsimp only <;> exact ⟨by simpa using hs.1, hs.2⟩

theorem tame_decodeDispatch : ∀ kind, Tame (decodeDispatch kind) := by
  intro kind s
  unfold decodeDispatch
  by_cases h0 : kind = some "EncodedStringValue"
  · rw [if_pos h0]
    exact tame_wrapD tame_decodeEncodedStringValue s
  rw [if_neg h0]
  by_cases h1 : kind = some "UriValue"
  · rw [if_pos h1]
    exact tame_wrapD tame_decodeUriValue s
  rw [if_neg h1]
  by_cases h2 : kind = some "ContentTypeValue"
  · rw [if_pos h2]
    exact tame_wrapD tame_decodeContentTypeValue s
  rw [if_neg h2]
  by_cases h3 : kind = some "DateValue"
  · rw [if_pos h3]
    exact tame_wrapD tame_decodeDateValue s
  rw [if_neg h3]
  by_cases h4 : kind = some "BooleanValue"
  · rw [if_pos h4]
    exact tame_wrapD tame_decodeBooleanValue s
  rw [if_neg h4]
  by_cases h5 : kind = some "ExpiryValue"
  · rw [if_pos h5]
    exact tame_wrapD tame_decodeExpiryValue s
  rw [if_neg h5]
  by_cases h6 : kind = some "FromValue"
  · rw [if_pos h6]
    exact tame_wrapD tame_decodeFromValue s
  rw [if_neg h6]
  by_cases h7 : kind = some "MessageClassValue"
  · rw [if_pos h7]
    exact tame_wrapD tame_decodeMessageClassValue s
  rw [if_neg h7]
  by_cases h8 : kind = some "TextString"
  · rw [if_pos h8]
    exact tame_wrapD tame_decodeTextString s
  rw [if_neg h8]
  by_cases h9 : kind = some "MessageTypeValue"
  · rw [if_pos h9]
    exact tame_wrapD tame_decodeMessageTypeValue s
  rw [if_neg h9]
  by_cases h10 : kind = some "VersionValue"
  · rw [if_pos h10]
    exact tame_wrapD tame_decodeVersionValue s
  rw [if_neg h10]
  by_cases h11 : kind = some "LongInteger"
  · rw [if_pos h11]
    exact tame_wrapD tame_decodeLongInteger s
  rw [if_neg h11]
  by_cases h12 : kind = some "PriorityValue"
  · rw [if_pos h12]
    exact tame_wrapD tame_decodePriorityValue s
  rw [if_neg h12]
  by_cases h13 : kind = some "SenderVisibilityValue"
  · rw [if_pos h13]
    exact tame_wrapD tame_decodeSenderVisibilityValue s
  rw [if_neg h13]
  by_cases h14 : kind = some "ResponseStatusValue"
  · rw [if_pos h14]
    exact tame_decodeResponseStatusValue s
  rw [if_neg h14]
  by_cases h15 : kind = some "StatusValue"
  · rw [if_pos h15]
    exact tame_decodeStatusValue s
  rw [if_neg h15]
  exact ⟨by simp, le_refl _⟩

theorem tame_decodeMMSHeader : Tame decodeMMSHeader := by
  intro s
  cases s with
  | nil => simp [decodeMMSHeader]
  | cons b0 rest =>
    simp only [decodeMMSHeader]
    cases hsi : decodeShortIntegerFromByte b0 with
    | error e =>
      dsimp only
      have : e = .decodeError := by
        unfold decodeShortIntegerFromByte at hsi
        split at hsi
        · exact absurd hsi (by simp)
        · injection hsi with h'; exact h'.symm
      subst this
      simp
    | ok code =>
      dsimp only
      cases hfb : fieldByCode code with
      | none => dsimp only; simp
      | some nk =>
        obtain ⟨name, kind⟩ := nk
        dsimp only
        have hd := tame_decodeDispatch kind rest
        rcases hdd : decodeDispatch kind rest with ⟨r, s'⟩
        rw [hdd] at hd
        simp only [] at hd
        cases r with
        | ok v =>
          dsimp only
          exact ⟨by simp, by have := hd.2; simp only [List.length_cons]; omega⟩
        | error e =>
          cases e <;> dsimp only <;>
            exact ⟨by simp, by have := hd.2; simp only [List.length_cons]; omega⟩

theorem tame_wsp_decode_header : Tame wsp_decode_header := by
  intro s
  unfold wsp_decode_header
  have htt := tame_decodeTokenText s
  rcases ht : decodeTokenText s with ⟨rt, s1⟩
  rw [ht] at htt
  simp only [] at htt
  cases rt with
  | error e => dsimp only; exact ⟨by simpa using htt.1, htt.2⟩
  | ok name =>
    dsimp only
    have hts := tame_decodeTextString s1
    rcases h2 : decodeTextString s1 with ⟨rv, s2⟩
    rw [h2] at hts
    simp only [] at hts
    cases rv with
    | error e => dsimp only; exact ⟨by simpa using hts.1, le_trans hts.2 htt.2⟩
    | ok v => dsimp only; exact ⟨by simp, le_trans hts.2 htt.2⟩

theorem tame_decode_header : Tame decode_header := by
  intro s
  unfold decode_header
  have hm := tame_decodeMMSHeader s
  rcases h : decodeMMSHeader s with ⟨r, s1⟩
  rw [h] at hm
  simp only [] at hm
  cases r with
  | ok v => dsimp only; exact ⟨by simp, hm.2⟩
  | error e =>
    cases e with
    | decodeError =>
      dsimp only
      have := tame_wsp_decode_header s1
      exact ⟨this.1, le_trans this.2 hm.2⟩
    | stopIteration => dsimp only; exact ⟨by simp, hm.2⟩
    | encodeError => dsimp only; exact ⟨by simp, hm.2⟩
    | runtimeError => dsimp only; exact ⟨by simp, hm.2⟩
    | nameError => dsimp only; exact ⟨by simp, hm.2⟩
    | fuel => exact absurd rfl hm.1

theorem decodeTokenText_ok_length {s s' : List Nat} {v : String}
    (h : decodeTokenText s = (.ok v, s')) : s'.length < s.length := by
  cases s with
  | nil => exact absurd h (by simp [decodeTokenText])
  | cons b rest =>
    simp only [decodeTokenText] at h
    split at h
    · exact absurd h (by simp)
    · cases hsp : splitAtZero (b :: rest) with
      | none => rw [hsp] at h; exact absurd h (by simp)
      | some pp =>
        obtain ⟨pre, post⟩ := pp
        rw [hsp] at h
        dsimp only at h
        injection h with h1 h2
        rw [← h2]
        exact splitAtZero_length hsp

theorem wsp_decode_header_ok_length {s s' : List Nat} {hv : String × HVal}
    (h : wsp_decode_header s = (.ok hv, s')) : s'.length < s.length := by
  unfold wsp_decode_header at h
  rcases ht : decodeTokenText s with ⟨rt, s1⟩
  rw [ht] at h
  cases rt with
  | error e => exact absurd h (by simp)
  | ok name =>
    dsimp only at h
    have h1 := decodeTokenText_ok_length ht
    have hts := tame_decodeTextString s1
    rcases h2 : decodeTextString s1 with ⟨rv, s2⟩
    rw [h2] at h hts
    simp only [] at hts
    cases rv with
    | error e => exact absurd h (by simp)
    | ok v =>
      dsimp only at h
      injection h with ha hb
      rw [← hb]
      exact lt_of_le_of_lt hts.2 h1

theorem decodeMMSHeader_ok_length {s s' : List Nat} {hv : String × HVal}
    (h : decodeMMSHeader s = (.ok hv, s')) : s'.length < s.length := by
  cases s with
  | nil => exact absurd h (by simp [decodeMMSHeader])
  | cons b0 rest =>
    simp only [decodeMMSHeader] at h
    cases hsi : decodeShortIntegerFromByte b0 with
    | error e => rw [hsi] at h; exact absurd h (by simp)
    | ok code =>
      rw [hsi] at h
      dsimp only at h
      cases hfb : fieldByCode code with
      | none => rw [hfb] at h; exact absurd h (by simp)
      | some nk =>
        obtain ⟨name, kind⟩ := nk
        rw [hfb] at h
        dsimp only at h
        have hd := tame_decodeDispatch kind rest
        rcases hdd : decodeDispatch kind rest with ⟨r, s1⟩
        rw [hdd] at h hd
        simp only [] at hd
        cases r with
        | ok v =>
          dsimp only at h
          injection h with ha hb
          rw [← hb]
          simp only [List.length_cons]
          omega
        | error e =>
          cases e <;> dsimp only at h <;> exact absurd h (by simp)

theorem decode_header_ok_length {s s' : List Nat} {hv : String × HVal}
    (h : decode_header s = (.ok hv, s')) : s'.length < s.length := by
  unfold decode_header at h
  have hm := tame_decodeMMSHeader s
  rcases hmm : decodeMMSHeader s with ⟨r, s1⟩
  rw [hmm] at h hm
  simp only [] at hm
  cases r with
  | ok v =>
    dsimp only at h
    injection h with ha hb
    rw [← ha, ← hb] at *
    exact decodeMMSHeader_ok_length hmm
  | error e =>
    cases e with
    | decodeError =>
      dsimp only at h
      exact lt_of_lt_of_le (wsp_decode_header_ok_length h) hm.2
    | stopIteration => exact absurd h (by simp)
    | encodeError => exact absurd h (by simp)
    | runtimeError => exact absurd h (by simp)
    | nameError => exact absurd h (by simp)
    | fuel => exact absurd rfl hm.1

/-! ## The header-block loop characterization (spec section 4.3) -/

/-- How the spec's header-entry loop stops: by accepting a Content-Type
entry, by cursor exhaustion, or by an aborting exception. -/
inductive HStop where
  | foundCT (v : HVal)
  | exhausted
  | failed (e : Err)
deriving DecidableEq, Repr

/-- A trace of the header-entry loop: the accepted entries before the
stop, the stop itself, and the bytes remaining at the stop. -/
structure HeaderTrace where
  entries : List (String × HVal)
  stop : HStop
  rest : List Nat
deriving DecidableEq, Repr

/-- Follows the spec's words (section 4.3): repeatedly decode header
entries, collecting each accepted non-Content-Type entry, stopping upon
accepting a Content-Type entry or upon cursor exhaustion; any other
exception aborts the loop. The first argument is recursion fuel. -/
def headerLoopSpec : Nat → List Nat → HeaderTrace
  | 0, s => ⟨[], .failed .fuel, s⟩
  | fuel + 1, s =>
    match decode_header s with
    | (.error .stopIteration, s') => ⟨[], .exhausted, s'⟩
    | (.error e, s') => ⟨[], .failed e, s'⟩
    | (.ok (h, v), s') =>
      if h = "Content-Type" then ⟨[], .foundCT v, s'⟩
      else
        match headerLoopSpec fuel s' with
        | ⟨es, st, r⟩ => ⟨(h, v) :: es, st, r⟩

/-- The `header, value` locals after the loop: the last accepted entry,
or the value they held before. -/
def lastOr (es : List (String × HVal)) (last : Option (String × HVal)) :
    Option (String × HVal) :=
  match es.getLast? with
  | some p => some p
  | none => last

theorem lastOr_cons (p : String × HVal) (es : List (String × HVal))
    (last : Option (String × HVal)) :
    lastOr (p :: es) last = lastOr es (some p) := by
  cases es with
  | nil => rfl
  | cons q t =>
    unfold lastOr
    rw [List.getLast?_cons_cons]
    cases h : (q :: t).getLast? with
    | some r => rfl
    | none => exact absurd h (by simp)

theorem hFold_append (h : Headers) (es : List (String × HVal))
    (p : String × HVal) :
    hFold h (es ++ [p]) = hInsert (hFold h es) p.1 p.2 := by
  simp [hFold, List.foldl_append]

theorem decodeHeaderLoop_spec :
    ∀ (fuel : Nat) (s : List Nat) (hmap : Headers)
      (last : Option (String × HVal)),
      decodeHeaderLoop fuel s hmap last =
        (match headerLoopSpec fuel s with
         | ⟨es, .foundCT v, rest⟩ =>
             .ok (hFold hmap es, some ("Content-Type", v), rest)
         | ⟨es, .exhausted, rest⟩ => .ok (hFold hmap es, lastOr es last, rest)
         | ⟨_, .failed e, _⟩ => .error e) ∧
      (headerLoopSpec fuel s).entries.all (fun kv => kv.1 ≠ "Content-Type") := by
  intro fuel
  induction fuel with
  | zero => intro s hmap last; exact ⟨rfl, by simp [headerLoopSpec]⟩
  | succ k ih =>
    intro s hmap last
    simp only [decodeHeaderLoop, headerLoopSpec]
    rcases hd : decode_header s with ⟨r, s'⟩
    cases r with
    | error e =>
      cases e with
      | stopIteration => exact ⟨rfl, by simp⟩
      | decodeError => exact ⟨rfl, by simp⟩
      | encodeError => exact ⟨rfl, by simp⟩
      | runtimeError => exact ⟨rfl, by simp⟩
      | nameError => exact ⟨rfl, by simp⟩
      | fuel => exact ⟨rfl, by simp⟩
    | ok hv =>
      obtain ⟨h, v⟩ := hv
      dsimp only
      by_cases hct : h = "Content-Type"
      · subst hct
        simp only [if_pos rfl]
        exact ⟨rfl, by simp⟩
      · simp only [if_neg hct]
        have ihx := ih s' (hInsert hmap h v) (some (h, v))
        rcases hT : headerLoopSpec k s' with ⟨es, st, rest⟩
        rw [hT] at ihx
        refine ⟨?_, ?_⟩
        · rw [ihx.1]
          cases st with
          | foundCT v' => rfl
          | exhausted =>
            dsimp only
            rw [lastOr_cons]
            rfl
          | failed e => rfl
        · dsimp only
          have := ihx.2
          simp only [List.all_cons, this, Bool.and_true]
          simpa using hct

theorem headerLoopSpec_no_fuel :
    ∀ (fuel : Nat) (s : List Nat), s.length < fuel →
      (headerLoopSpec fuel s).stop ≠ .failed .fuel := by
  intro fuel
  induction fuel with
  | zero => intro s hs; omega
  | succ k ih =>
    intro s hs
    simp only [headerLoopSpec]
    rcases hd : decode_header s with ⟨r, s'⟩
    cases r with
    | error e =>
      cases e with
      | stopIteration => simp
      | decodeError => simp
      | encodeError => simp
      | runtimeError => simp
      | nameError => simp
      | fuel =>
        have := (tame_decode_header s).1
        rw [hd] at this
        exact absurd rfl this
    | ok hv =>
      obtain ⟨h, v⟩ := hv
      dsimp only
      by_cases hct : h = "Content-Type"
      · simp [hct]
      · simp only [if_neg hct]
        have hlen : s'.length < s.length := decode_header_ok_length hd
        have := ih s' (by omega)
        rcases hT : headerLoopSpec k s' with ⟨es, st, rest⟩
        rw [hT] at this
        simpa using this

theorem lastOr_spec :
    ∀ (es : List (String × HVal)) (last : Option (String × HVal)),
      (es = [] ∧ lastOr es last = last) ∨
        (∃ q, q ∈ es ∧ lastOr es last = some q) := by
  intro es
  induction es with
  | nil => intro last; exact Or.inl ⟨rfl, rfl⟩
  | cons p t ih =>
    intro last
    rw [lastOr_cons]
    rcases ih (some p) with ⟨-, h⟩ | ⟨q, hq, h⟩
    · exact Or.inr ⟨p, List.mem_cons_self _ _, h⟩
    · exact Or.inr ⟨q, List.mem_cons_of_mem _ hq, h⟩

/-- C5: for every input byte sequence, the header block loop stops
exactly on accepting a Content-Type entry or on cursor exhaustion (the
fuel bound of the embedding is never the reason, and every entry accepted
before the stop is not Content-Type named); when it stops on
Content-Type, the returned map is the fold of all accepted entries with
the Content-Type entry recorded as well, and the bytes after that entry
are returned unconsumed for the body decoder; when it stops on
exhaustion, the map folds the accepted entries (the empty case being the
unassigned-variable error); an aborting exception propagates. -/
theorem c5_header_loop_characterization :
    ∀ data : List Nat,
      (headerLoopSpec (data.length + 1) data).stop ≠ .failed .fuel ∧
      (headerLoopSpec (data.length + 1) data).entries.all
        (fun kv => kv.1 ≠ "Content-Type") ∧
      decode_message_header data =
        (match headerLoopSpec (data.length + 1) data with
         | ⟨es, .foundCT v, rest⟩ =>
             .ok (hFold hEmpty (es ++ [("Content-Type", v)]), rest)
         | ⟨es, .exhausted, rest⟩ =>
             if es = [] then .error .nameError
             else .ok (hFold hEmpty es, rest)
         | ⟨_, .failed e, _⟩ => .error e) := by
  intro data
  obtain ⟨hLoop, hAll⟩ := decodeHeaderLoop_spec (data.length + 1) data hEmpty none
  refine ⟨headerLoopSpec_no_fuel _ _ (by omega), hAll, ?_⟩
  unfold decode_message_header
  rw [hLoop]
  rcases hT : headerLoopSpec (data.length + 1) data with ⟨es, st, rest⟩
  rw [hT] at hAll
  simp only [] at hAll
  cases st with
  | foundCT v =>
    dsimp only
    rw [if_pos rfl, hFold_append]
  | exhausted =>
    dsimp only
    cases es with
    | nil => simp [lastOr]
    | cons p t =>
      rcases lastOr_spec (p :: t) none with ⟨hnil, -⟩ | ⟨q, hq, hlo⟩
      · exact absurd hnil (by simp)
      · obtain ⟨qh, qv⟩ := q
        rw [hlo]
        dsimp only
        have hqne : qh ≠ "Content-Type" := by
          rw [List.all_eq_true] at hAll
          have := hAll (qh, qv) hq
          simpa using this
        rw [if_neg hqne, if_neg (by simp : ¬(p :: t) = ([] : List (String × HVal)))]
  | failed e => rfl

/-! ## The body-block characterization (spec section 4.4) -/

theorem readN_eq :
    ∀ (n : Nat) (s : List Nat),
      readN n s =
        ((if n ≤ s.length then .ok (s.take n) else .error .stopIteration),
         s.drop n) := by
  intro n
  induction n with
  | zero => intro s; simp [readN]
  | succ k ih =>
    intro s
    cases s with
    | nil => simp [readN]
    | cons b rest =>
      simp only [readN, ih rest]
      by_cases hk : k ≤ rest.length
      · rw [if_pos hk]
        dsimp only
        rw [if_pos (by simp only [List.length_cons]; omega)]
        simp
      · rw [if_neg hk]
        dsimp only
        rw [if_neg (by simp only [List.length_cons]; omega)]
        simp

/-- Follows the spec's words (section 4.4): per part, read headers-length
H and data-length D as variable-length integers; the Content-Type value
and the additional headers are decoded from a sub-cursor bounded to
exactly the next H bytes (never past them); exactly the next D bytes are
the payload (never past them); fewer available bytes than a declared
length is an exhaustion; the N parts are collected in arrival order. -/
def bodySpecParts : Nat → List Nat → Except Err (List DataPart)
  | 0, _ => .ok []
  | n + 1, s =>
    match decodeUintvar s with
    | (.error e, _) => .error e
    | (.ok headers_len, s1) =>
      match decodeUintvar s1 with
      | (.error e, _) => .error e
      | (.ok data_len, s2) =>
        if headers_len ≤ s2.length then
          match decodeContentTypeValue (s2.take headers_len) with
          | (.error e, _) => .error e
          | (.ok (content_type, ct_parameters), sub) =>
            match partHeadersLoop (sub.length + 1) sub
                (hInsert hEmpty "Content-Type" (.ct content_type ct_parameters)) with
            | .error e => .error e
            | .ok headers =>
              if data_len ≤ (s2.drop headers_len).length then
                let part0 : DataPart := ⟨"", [], hEmpty, []⟩
                let part1 := setData part0 ((s2.drop headers_len).take data_len)
                    content_type
                let part := { part1 with
                  contentTypeParameters := ct_parameters
                  headers := headers }
                match bodySpecParts n ((s2.drop headers_len).drop data_len) with
                | .error e => .error e
                | .ok parts => .ok (part :: parts)
              else .error .stopIteration
        else .error .stopIteration

/-- Follows the spec's words: the part count, then that many parts; an
exhaustion on the count itself is the ordinary empty-body termination. -/
def bodySpec (s : List Nat) : Except Err (List DataPart) :=
  match decodeUintvar s with
  | (.error .stopIteration, _) => .ok []
  | (.error e, _) => .error e
  | (.ok num_entries, s1) => bodySpecParts num_entries s1

theorem partHeadersLoop_no_fuel :
    ∀ (fuel : Nat) (s : List Nat) (hmap : Headers), s.length < fuel →
      partHeadersLoop fuel s hmap ≠ .error .fuel := by
  intro fuel
  induction fuel with
  | zero => intro s hmap hs; omega
  | succ k ih =>
    intro s hmap hs
    simp only [partHeadersLoop]
    rcases hd : decode_header s with ⟨r, s'⟩
    cases r with
    | error e =>
      cases e with
      | stopIteration => simp
      | decodeError => simp
      | encodeError => simp
      | runtimeError => simp
      | nameError => simp
      | fuel =>
        have := (tame_decode_header s).1
        rw [hd] at this
        exact absurd rfl this
    | ok hv =>
      obtain ⟨h, v⟩ := hv
      dsimp only
      have hlen : s'.length < s.length := decode_header_ok_length hd
      exact ih s' (hInsert hmap h v) (by omega)

theorem decodeParts_eq :
    ∀ (n : Nat) (s : List Nat), decodeParts n s = bodySpecParts n s := by
  intro n
  induction n with
  | zero => intro s; rfl
  | succ k ih =>
    intro s
    simp only [decodeParts, bodySpecParts]
    rcases h1 : decodeUintvar s with ⟨r1, s1⟩
    cases r1 with
    | error e => try dsimp only
    | ok headers_len =>
      dsimp only
      rcases h2 : decodeUintvar s1 with ⟨r2, s2⟩
      cases r2 with
      | error e => try dsimp only
      | ok data_len =>
        dsimp only
        rw [readN_eq headers_len s2]
        by_cases hhl : headers_len ≤ s2.length
        · rw [if_pos hhl, if_pos hhl]
          dsimp only
          rcases h3 : decodeContentTypeValue (s2.take headers_len) with ⟨r3, sub⟩
          cases r3 with
          | error e => try dsimp only
          | ok ctp =>
            obtain ⟨content_type, ct_parameters⟩ := ctp
            dsimp only
            cases h4 : partHeadersLoop (sub.length + 1) sub
                (hInsert hEmpty "Content-Type" (.ct content_type ct_parameters)) with
            | error e => try dsimp only
            | ok headers =>
              dsimp only
              rw [readN_eq data_len (s2.drop headers_len)]
              by_cases hdl : data_len ≤ (s2.drop headers_len).length
              · rw [if_pos hdl, if_pos hdl]
                dsimp only
                rw [ih ((s2.drop headers_len).drop data_len)]
              · rw [if_neg hdl, if_neg hdl]
        · rw [if_neg hhl, if_neg hhl]
          try dsimp only

theorem decodeParts_no_fuel :
    ∀ (n : Nat) (s : List Nat), decodeParts n s ≠ .error .fuel := by
  intro n
  induction n with
  | zero => intro s; simp [decodeParts]
  | succ k ih =>
    intro s
    simp only [decodeParts]
    have hu1 := tame_decodeUintvar s
    rcases h1 : decodeUintvar s with ⟨r1, s1⟩
    rw [h1] at hu1
    simp only [] at hu1
    cases r1 with
    | error e => dsimp only; simpa using hu1.1
    | ok headers_len =>
      dsimp only
      have hu2 := tame_decodeUintvar s1
      rcases h2 : decodeUintvar s1 with ⟨r2, s2⟩
      rw [h2] at hu2
      simp only [] at hu2
      cases r2 with
      | error e => dsimp only; simpa using hu2.1
      | ok data_len =>
        dsimp only
        have hr1 := tame_readN headers_len s2
        rcases hr : readN headers_len s2 with ⟨rr, s3⟩
        rw [hr] at hr1
        simp only [] at hr1
        cases rr with
        | error e => dsimp only; simpa using hr1.1
        | ok ct_field_bytes =>
          dsimp only
          have hct := tame_decodeContentTypeValue ct_field_bytes
          rcases h3 : decodeContentTypeValue ct_field_bytes with ⟨r3, sub⟩
          rw [h3] at hct
          simp only [] at hct
          cases r3 with
          | error e => dsimp only; simpa using hct.1
          | ok ctp =>
            obtain ⟨content_type, ct_parameters⟩ := ctp
            dsimp only
            cases h4 : partHeadersLoop (sub.length + 1) sub
                (hInsert hEmpty "Content-Type" (.ct content_type ct_parameters)) with
            | error e =>
              dsimp only
              have := partHeadersLoop_no_fuel (sub.length + 1) sub
                (hInsert hEmpty "Content-Type" (.ct content_type ct_parameters))
                (by omega)
              rw [h4] at this
              simpa using this
            | ok headers =>
              dsimp only
              have hr2 := tame_readN data_len s3
              rcases hrr : readN data_len s3 with ⟨rr2, s4⟩
              rw [hrr] at hr2
              simp only [] at hr2
              cases rr2 with
              | error e => dsimp only; simpa using hr2.1
              | ok payload =>
                dsimp only
                cases h5 : decodeParts k s4 with
                | error e =>
                  dsimp only
                  have := ih s4
                  rw [h5] at this
                  simpa using this
                | ok parts => dsimp only; simp

/-- C6: the body decoder refines the spec's bounded-framing description:
for every byte sequence it equals the spec-side decoder that reads, per
part, the headers-length H and data-length D, decodes the Content-Type
value and additional headers from a sub-cursor bounded to exactly the
next H bytes, takes exactly the next D bytes as the payload, and appends
the parts in arrival order — never reading past either declared length;
and the embedding's fuel bound is never the cause of a failure. -/
theorem c6_body_framing :
    ∀ s : List Nat,
      decode_message_body s = bodySpec s ∧
      decode_message_body s ≠ .error .fuel := by
  intro s
  constructor
  · simp only [decode_message_body, bodySpec]
    rcases h1 : decodeUintvar s with ⟨r1, s1⟩
    cases r1 with
    | error e => cases e <;> rfl
    | ok n => dsimp only; exact decodeParts_eq n s1
  · simp only [decode_message_body]
    have hu := tame_decodeUintvar s
    rcases h1 : decodeUintvar s with ⟨r1, s1⟩
    rw [h1] at hu
    simp only [] at hu
    cases r1 with
    | error e =>
      cases e with
      | stopIteration => simp
      | decodeError => simp
      | encodeError => simp
      | runtimeError => simp
      | nameError => simp
      | fuel => exact absurd rfl hu.1
    | ok n => dsimp only; exact decodeParts_no_fuel n s1
